import Mathlib

/-!
Verification of the PhotoRename script `ptrn.py`.

The script is shallowly embedded: paths are `String`s, the file system is a
`World` structure holding the list of existing paths together with the
external collaborators (Exif reader, rename/listdir failure oracles), and
every Python function of the script becomes a Lean function over `World`.

Modelling conventions, recorded once here:
* `os.path` is modelled with the POSIX separator `/` (the algorithms of
  `posixpath.split/splitext/join` are reproduced verbatim; the script's logic
  is separator-generic).
* `os.rename` is modelled with the semantics the script's target platform
  (Windows, see the `D:\photos` examples in its docstrings) gives it: the
  call raises when the source does not exist, when the target already
  exists, or when the abstract failure oracle `renameFails` says so.
* `str.lower` is modelled by `Char.toLower` (ASCII-faithful).
* Python's `re.match` of the fixed-width anchored regex in `is_date_time`
  is unfolded into explicit character tests; `$` matches at the end of the
  string or just before one final newline, exactly as in Python.
* An uncaught exception (the `UnboundLocalError` that `rn_by_exif` raises
  after an access error, see `rn_by_exif` below) sets the `crashed` flag;
  every loop of the script stops as soon as the flag is set, which models
  the exception aborting the run.
* Console output is collected in `World.log`, most recent line first.  The
  quote characters of the f-string messages are kept.
-/

/-! ## Python string primitives -/

/-- Python `s[start : start+len]` (slicing clamps out-of-range bounds). -/
def pySlice (s : String) (start len : Nat) : String :=
  ⟨(s.data.drop start).take len⟩

/-- Python `s.startswith(pre)` for a single string argument. -/
def pyStartswith (s pre : String) : Bool :=
  pre.data.isPrefixOf s.data

/-- Python `s.endswith(suf)` for a single string argument. -/
def pyEndswith (s suf : String) : Bool :=
  suf.data.isSuffixOf s.data

/-- Python `s.endswith(sufs)` for a tuple argument: any suffix matches. -/
def pyEndswithAny (s : String) (sufs : List String) : Bool :=
  sufs.any (fun e => pyEndswith s e)

/-- Python `s.lower()` (ASCII case folding). -/
def pyLower (s : String) : String :=
  ⟨s.data.map Char.toLower⟩

/-- Python `s[:-n]`.  For `n = 0` Python reads `s[:0] = ""`. -/
def pyDropRight (s : String) (n : Nat) : String :=
  if n = 0 then "" else ⟨s.data.take (s.data.length - n)⟩

/-- Python `s.replace(c, r)` for a one-character pattern `c`. -/
def pyReplaceChar (s : String) (c : Char) (r : String) : String :=
  ⟨s.data.foldr (fun a acc => if a = c then r.data ++ acc else a :: acc) []⟩

/-- Decimal rendering of a natural number, as Python `str(n)` produces it. -/
def digitChar (d : Nat) : Char :=
  if d = 0 then '0' else if d = 1 then '1' else if d = 2 then '2'
  else if d = 3 then '3' else if d = 4 then '4' else if d = 5 then '5'
  else if d = 6 then '6' else if d = 7 then '7' else if d = 8 then '8' else '9'

/-- The digits of `n` in base ten, most significant first. -/
def natToDec (n : Nat) : List Char :=
  if _h : n < 10 then [digitChar n]
  else natToDec (n / 10) ++ [digitChar (n % 10)]
decreasing_by
  exact Nat.div_lt_self (Nat.lt_of_lt_of_le (by norm_num) (Nat.not_lt.mp _h)) (by norm_num)

/-- Python `str(n)` for a natural number. -/
def natToDecStr (n : Nat) : String := ⟨natToDec n⟩

/-! ## posixpath algorithms

`posixpath.split`, `genericpath._splitext` and `posixpath.join` are
reproduced operation by operation; `rfind`-based index arithmetic is
replaced by the equivalent reverse `takeWhile` computations. -/

/-- The longest suffix of `l` free of the character `c0` (the part after the
last occurrence of `c0`, or all of `l` when `c0` does not occur): Python's
`p[p.rfind(c0)+1:]`. -/
def revTail (c0 : Char) (l : List Char) : List Char :=
  (l.reverse.takeWhile (fun c => ¬ (c = c0))).reverse

/-- The tail of `posixpath.split`: everything after the last `/`. -/
def splitTail (l : List Char) : List Char :=
  revTail '/' l

/-- The raw head of `posixpath.split`: everything up to and including the
last `/`. -/
def splitHeadRaw (l : List Char) : List Char :=
  l.take (l.length - (splitTail l).length)

/-- Strip trailing slashes (Python `head.rstrip('/')`). -/
def rstripSlash (l : List Char) : List Char :=
  (l.reverse.dropWhile (fun c => c = '/')).reverse

/-- `posixpath.split(p)`: `(head, tail)` split at the final slash; the head
keeps no trailing slash unless it consists of slashes only. -/
def pySplit (p : String) : String × String :=
  let t := splitTail p.data
  let h := splitHeadRaw p.data
  let h2 := if h ≠ [] ∧ h.any (fun c => ¬ (c = '/')) then rstripSlash h else h
  (⟨h2⟩, ⟨t⟩)

/-- `posixpath.splitext(p)`: split at the last dot when that dot lies inside
the basename and the basename does not consist solely of leading dots up to
it (so `.bashrc` keeps its name).  `revTail '/'` is the basename
(`p[sepIndex+1:]`), `(revTail '.' l).length` the number of characters after
the last dot (`len(p) - dotIndex - 1`). -/
def pySplitext (p : String) : String × String :=
  let l := p.data
  let bn := revTail '/' l
  let aft := (revTail '.' l).length
  if aft < bn.length ∧ (bn.take (bn.length - aft - 1)).any (fun c => ¬ (c = '.'))
  then (⟨l.take (l.length - aft - 1)⟩, ⟨l.drop (l.length - aft - 1)⟩)
  else (p, "")

/-- `posixpath.join(a, b)` for two arguments. -/
def pyJoin (a b : String) : String :=
  if b.data.head? = some '/' then b
  else if a.data = [] ∨ a.data.getLast? = some '/' then ⟨a.data ++ b.data⟩
  else ⟨a.data ++ '/' :: b.data⟩

/-! ## The naming-convention classifier (`is_date_time`, ptrn.py lines 23-49)

The regular expression

  `^(19[7-9][0-9]|20[0-9]2|9999)(0[1-9]|1[0-2])(0[1-9]|[12][0-9]|3[01])_`
  `(0[0-9]|1[0-9]|2[0-3])([0-5][0-9])([0-5][0-9])$`

is fixed-width, so `re.match` succeeding is equivalent to the explicit
character tests below.  Python's `$` (without `re.MULTILINE`) matches at the
very end of the string or just before a single final newline. -/

def isDig (c : Char) : Bool := '0' ≤ c ∧ c ≤ '9'

def yearOk (c0 c1 c2 c3 : Char) : Bool :=
  (c0 = '1' && c1 = '9' && ('7' ≤ c2 && c2 ≤ '9') && isDig c3) ||
  (c0 = '2' && c1 = '0' && isDig c2 && isDig c3) ||
  (c0 = '9' && c1 = '9' && c2 = '9' && c3 = '9')

def monthOk (c4 c5 : Char) : Bool :=
  (c4 = '0' && ('1' ≤ c5 && c5 ≤ '9')) || (c4 = '1' && ('0' ≤ c5 && c5 ≤ '2'))

def dayOk (c6 c7 : Char) : Bool :=
  (c6 = '0' && ('1' ≤ c7 && c7 ≤ '9')) ||
  ((c6 = '1' || c6 = '2') && isDig c7) ||
  (c6 = '3' && (c7 = '0' || c7 = '1'))

def hourOk (c9 c10 : Char) : Bool :=
  ((c9 = '0' || c9 = '1') && isDig c10) || (c9 = '2' && ('0' ≤ c10 && c10 ≤ '3'))

def minSecOk (ca cb : Char) : Bool :=
  ('0' ≤ ca && ca ≤ '5') && isDig cb

/-- The fifteen-character core followed by Python's `$`. -/
def dtmCore (l : List Char) : Bool :=
  match l with
  | c0 :: c1 :: c2 :: c3 :: c4 :: c5 :: c6 :: c7 :: c8 :: c9 :: c10 :: c11 :: c12 :: c13 :: c14 :: rest =>
      yearOk c0 c1 c2 c3 && monthOk c4 c5 && dayOk c6 c7 && (c8 = '_') &&
      hourOk c9 c10 && minSecOk c11 c12 && minSecOk c13 c14 &&
      (rest.isEmpty || rest = ['\n'])
  | _ => false

/-- `is_date_time` (ptrn.py lines 23-49): `re.match(Regex, string)` is truthy. -/
def is_date_time (string : String) : Bool :=
  dtmCore string.data

/-! ## The world: file system and external collaborators

`files` is the flat list of existing paths (the ground truth of the file
system), `exif` the external metadata reader (value of the
`EXIF DateTimeOriginal` tag when present), `openFails` and `renameFails`
abstract per-call I/O failures (permissions and the like), `listdirFails`
an unreadable directory.  `log` collects console lines, most recent first;
`renameLog` records every performed rename `(old, new)`, most recent first;
`crashed` is set when an uncaught exception aborts the run. -/

structure World where
  files : List String
  exif : String → Option String
  openFails : String → Bool
  renameFails : String → String → Bool
  listdirFails : String → Bool
  log : List String
  renameLog : List (String × String)
  crashed : Bool

def print (w : World) (s : String) : World :=
  { w with log := s :: w.log }

def crash (w : World) : World :=
  { w with crashed := true }

/-- `os.rename(old, new)`: raises when the source is missing, when the
target already exists (Windows semantics, see the module comment) or when
the failure oracle says so; otherwise moves the path. -/
def os_rename (w : World) (old new : String) : Bool × World :=
  if old ∈ w.files ∧ new ∉ w.files ∧ w.renameFails old new = false then
    (true, { w with files := new :: w.files.erase old,
                    renameLog := (old, new) :: w.renameLog })
  else (false, w)

/-- `os.listdir(dir)` derived from the flat file set: the entries of `dir`
are the slash-free non-empty remainders of the paths extending `dir ++ "/"`. -/
def nameInDir (dir : String) (p : String) : Option String :=
  let dd := dir.data
  let pd := p.data
  if pd.take (dd.length + 1) = dd ++ ['/'] ∧ pd.drop (dd.length + 1) ≠ [] ∧
     '/' ∉ pd.drop (dd.length + 1)
  then some ⟨pd.drop (dd.length + 1)⟩ else none

def listdirW (w : World) (dir : String) : List String :=
  w.files.filterMap (nameInDir dir)

/-! ## `select_by_exts` (ptrn.py lines 52-97)

The tuple case of the extension parameter is modelled (a single string
argument behaves as the one-element tuple); the `isinstance` check on the
parameter's type is discharged statically by the embedding's types. -/

def select_by_exts (w : World) (dir : String) (f_exts : List String) :
    List String × World :=
  let exts := f_exts.map pyLower
  if w.listdirFails dir = true then
    ([], print w ("Error: cannot access the folder '" ++ dir ++ "'.\n"))
  else
    ((listdirW w dir).filterMap
      (fun file => if pyEndswithAny (pyLower file) exts = true
                   then some (pyJoin dir file) else none), w)

/-! ## `filter_by_name` (ptrn.py lines 100-160) -/

/-- The inner loop over `f_heads`, with its `break` on the first match. -/
def excludedLoop (f_base : String) : List String → Bool
  | [] => false
  | f_head :: rest =>
      let dtm_slice := pySlice f_base f_head.length 15
      if pyStartswith f_base f_head && is_date_time dtm_slice then true
      else excludedLoop f_base rest

def filter_by_name (paths : List String) (f_heads : List String) : List String :=
  paths.filter (fun path =>
    let basename := (pySplit path).2
    let f_base := (pySplitext basename).1
    !(excludedLoop f_base f_heads))

/-! ## `rn_by_exif` (ptrn.py lines 163-216)

When opening or reading the image raises (missing file, or the `openFails`
oracle), the bare `except` prints the access error but does not return;
the subsequent `if tag_date in tags` then reads the never-assigned local
`tags` and raises `UnboundLocalError`, which nothing catches: the call
crashes the run.  This is modelled by the `RnResult.raised` outcome. -/

inductive RnResult where
  | ok (new_path : String)
  | none
  | raised
deriving DecidableEq

/-- `str(tags[tag_date]).replace(':','').replace(' ', '_')`. -/
def fmtExif (raw : String) : String :=
  pyReplaceChar (pyReplaceChar raw ':' "") ' ' "_"

/-- Candidate target basenames of the collision loop: the plain timestamp
name first, then the `-N` suffixed names. -/
def candName (head dt ext : String) : Nat → String
  | 0 => head ++ dt ++ ext
  | Nat.succ k => head ++ dt ++ "-" ++ natToDecStr (k + 1) ++ ext

/-- The `while True` collision loop: starting at candidate `i`, return the
first candidate path that does not exist.  The loop is unbounded in the
script; here it carries fuel, always called with more fuel than there are
files, which the termination lemmas show is never exhausted when a free
candidate exists in range. -/
def find_loop (files : List String) (folder head dt ext : String) :
    Nat → Nat → String
  | 0, i => pyJoin folder (candName head dt ext i)
  | fuel + 1, i =>
      let np := pyJoin folder (candName head dt ext i)
      if np ∈ files then find_loop files folder head dt ext fuel (i + 1) else np

def rn_by_exif (w : World) (path : String) (head : String) : RnResult × World :=
  let folder := (pySplit path).1
  let f_basename := (pySplit path).2
  let ext := (pySplitext f_basename).2
  if path ∈ w.files ∧ w.openFails path = false then
    match w.exif path with
    | some raw =>
        let date_time := fmtExif raw
        let new_path := find_loop w.files folder head date_time ext (w.files.length + 1) 0
        let r := os_rename w path new_path
        if r.1 then (RnResult.ok new_path, r.2)
        else (RnResult.none,
              print r.2 ("Error: cannot rename '" ++ path ++ "' to '" ++ new_path ++ "'\n"))
    | Option.none =>
        (RnResult.none, print w ("- Not enough Exif info. to rename '" ++ path ++ "'"))
  else
    (RnResult.raised, crash (print w ("Error: cannot access the image '" ++ path ++ "'.\n")))

/-- Successive direct calls of `rn_by_exif`, collecting each call's result. -/
def rn_many (w : World) (head : String) : List String → List RnResult × World
  | [] => ([], w)
  | p :: rest =>
      let r := rn_by_exif w p head
      let rs := rn_many r.2 head rest
      (r.1 :: rs.1, rs.2)

/-! ## `rn_mov` (ptrn.py lines 219-247) -/

def rn_mov (w : World) (lmov_path limg_path : String) : Option String × World :=
  let lmov_ext := (pySplitext lmov_path).2
  let limg_base := (pySplitext limg_path).1
  let new_lmov_path := limg_base ++ lmov_ext
  let r := os_rename w lmov_path new_lmov_path
  if r.1 then (some new_lmov_path, r.2)
  else (Option.none,
        print r.2 ("Error: cannot rename '" ++ lmov_path ++ "' to '" ++ new_lmov_path ++ "'\n"))

/-! ## `rn_lphotos` (ptrn.py lines 250-325)

The nested pair loops; the image and movie candidate lists are computed
once before the loops (so they can go stale while the loops rename). -/

/-- One matched pair: report, rename the image, and only on success rename
the clip (ptrn.py lines 312-323). -/
def pair_step (w : World) (lmov_path limg_path : String) : World :=
  let w0 := print w ("Renaming live photo files: " ++ limg_path ++ " and " ++ lmov_path)
  let r := rn_by_exif w0 limg_path "IMG_"
  match r.1 with
  | RnResult.ok new_jpg => (rn_mov r.2 lmov_path new_jpg).2
  | _ => r.2

def pairs_inner (w : World) (lmov_path lmov_base : String) (len_limg_ext : Nat) :
    List String → World
  | [] => w
  | limg_path :: rest =>
      if w.crashed then w
      else
        let limg_base := pyDropRight limg_path len_limg_ext
        if lmov_base = limg_base then
          pairs_inner (pair_step w lmov_path limg_path) lmov_path lmov_base len_limg_ext rest
        else pairs_inner w lmov_path lmov_base len_limg_ext rest

def pairs_outer (w : World) (limg_paths : List String) (len_limg_ext len_lmov_ext : Nat) :
    List String → World
  | [] => w
  | lmov_path :: rest =>
      if w.crashed then w
      else
        let lmov_base := pyDropRight lmov_path len_lmov_ext
        pairs_outer (pairs_inner w lmov_path lmov_base len_limg_ext limg_paths)
          limg_paths len_limg_ext len_lmov_ext rest

def rn_lphotos (w : World) (limg_dir : String) (limg_ext lmov_ext : String)
    (f_heads : List String) : World :=
  if w.crashed then w
  else
    let s1 := select_by_exts w limg_dir [limg_ext]
    let limg_paths := filter_by_name s1.1 f_heads
    let s2 := select_by_exts s1.2 limg_dir [lmov_ext]
    let lmov_paths := filter_by_name s2.1 f_heads
    if lmov_paths ≠ [] then
      pairs_outer s2.2 limg_paths limg_ext.length lmov_ext.length lmov_paths
    else print s2.2 "No live photo is found."

/-! ## The main program (ptrn.py lines 328-349)

The directory is a parameter (the script hard-codes its own test folder);
the extension and head configuration is the script's. -/

def img_exts : List String := [".jpg", ".jpeg", ".tif", ".tiff"]

def f_heads : List String := ["IMG_", "img_", "Img_"]

def phase2_loop (w : World) : List String → World
  | [] => w
  | img_path :: rest =>
      if w.crashed then w
      else phase2_loop (rn_by_exif (print w ("Renaming: " ++ img_path)) img_path "IMG_").2 rest

/-- Lines 340-349: re-scan, re-filter, rename the remaining stills, report. -/
def phase2 (w : World) (img_dir : String) : World :=
  if w.crashed then w
  else
    let s := select_by_exts w img_dir img_exts
    let img_paths := filter_by_name s.1 f_heads
    if img_paths ≠ [] then
      let w2 := phase2_loop s.2 img_paths
      if w2.crashed then w2 else print w2 "Done."
    else print s.2 "No file was further renamed."

/-- The whole run: live-photo pass (line 337, with the defaults
`limg_ext='.JPG'`, `lmov_ext='.MOV'`, `f_heads='IMG_'`), then the
plain-still pass. -/
def full_run (w : World) (img_dir : String) : World :=
  phase2 (rn_lphotos w img_dir ".JPG" ".MOV" ["IMG_"]) img_dir

example : is_date_time "20230406_175047" = true := by decide
example : is_date_time "20231306_175047" = false := by decide
example : is_date_time "19690406_175047" = false := by decide
example : is_date_time "99991231_235959" = true := by decide
example : is_date_time "20230406_175047x" = false := by decide
example : is_date_time "2023040_175047" = false := by decide

/-! ## Helper lemmas: strings and lists -/

theorem sdata_mk (l : List Char) : (String.mk l).data = l := rfl

theorem smk_data (s : String) : String.mk s.data = s := rfl

theorem sdata_append (a b : String) : (a ++ b).data = a.data ++ b.data :=
  String.data_append a b

theorem seq_of_data {a b : String} (h : a.data = b.data) : a = b := by
  cases a; cases b; cases h; rfl

theorem takeWhile_all {p : Char → Bool} {l : List Char} (h : ∀ x ∈ l, p x = true) :
    l.takeWhile p = l :=
  List.takeWhile_eq_self_iff.mpr h

theorem takeWhile_append_all {p : Char → Bool} {l1 l2 : List Char}
    (h : ∀ x ∈ l1, p x = true) :
    (l1 ++ l2).takeWhile p = l1 ++ l2.takeWhile p := by
  rw [List.takeWhile_append, takeWhile_all h, if_pos rfl]

theorem takeWhile_append_stop {p : Char → Bool} {l1 l2 : List Char} {c : Char}
    (h : ∀ x ∈ l1, p x = true) (hc : p c = false) :
    (l1 ++ c :: l2).takeWhile p = l1 := by
  rw [takeWhile_append_all h, List.takeWhile_cons, hc]
  simp

theorem takeWhile_length_le (p : Char → Bool) :
    ∀ l : List Char, (l.takeWhile p).length ≤ l.length
  | [] => Nat.le_refl _
  | c :: l => by
      rw [List.takeWhile_cons]
      by_cases h : p c
      · simpa [h] using Nat.succ_le_succ (takeWhile_length_le p l)
      · simp [h]

/-! ## Helper lemmas: decimal rendering -/

theorem natToDec_lt {n : Nat} (h : n < 10) : natToDec n = [digitChar n] := by
  rw [natToDec]; simp [h]

theorem natToDec_ge {n : Nat} (h : ¬ n < 10) :
    natToDec n = natToDec (n / 10) ++ [digitChar (n % 10)] := by
  rw [natToDec]; simp [h]

theorem natToDec_ne_nil (n : Nat) : natToDec n ≠ [] := by
  by_cases h : n < 10
  · rw [natToDec_lt h]; simp
  · rw [natToDec_ge h]; simp

theorem digitChar_range (d : Nat) : '0' ≤ digitChar d ∧ digitChar d ≤ '9' := by
  unfold digitChar
  split_ifs <;> decide

theorem digitChar_inj : ∀ a < 10, ∀ b < 10, digitChar a = digitChar b → a = b := by
  decide

theorem natToDec_inj (m : Nat) : ∀ n : Nat, natToDec m = natToDec n → m = n := by
  induction m using Nat.strong_induction_on with
  | _ m ih =>
    intro n h
    by_cases hm : m < 10 <;> by_cases hn : n < 10
    · rw [natToDec_lt hm, natToDec_lt hn] at h
      exact digitChar_inj m hm n hn (by simpa using h)
    · rw [natToDec_lt hm, natToDec_ge hn] at h
      have hlen := congrArg List.length h
      simp only [List.length_append, List.length_cons, List.length_nil] at hlen
      have h0 : (natToDec (n / 10)).length = 0 := by omega
      exact absurd (List.eq_nil_of_length_eq_zero h0) (natToDec_ne_nil _)
    · rw [natToDec_ge hm, natToDec_lt hn] at h
      have hlen := congrArg List.length h
      simp only [List.length_append, List.length_cons, List.length_nil] at hlen
      have h0 : (natToDec (m / 10)).length = 0 := by omega
      exact absurd (List.eq_nil_of_length_eq_zero h0) (natToDec_ne_nil _)
    · rw [natToDec_ge hm, natToDec_ge hn] at h
      obtain ⟨h1, h2⟩ := List.append_inj' h (by simp)
      have hdiv : m / 10 = n / 10 :=
        ih (m / 10) (Nat.div_lt_self (Nat.lt_of_lt_of_le (by norm_num) (Nat.not_lt.mp hm))
          (by norm_num)) _ h1
      have hmod : m % 10 = n % 10 :=
        digitChar_inj _ (Nat.mod_lt _ (by norm_num)) _ (Nat.mod_lt _ (by norm_num))
          (by simpa using h2)
      calc m = 10 * (m / 10) + m % 10 := (Nat.div_add_mod m 10).symm
        _ = 10 * (n / 10) + n % 10 := by rw [hdiv, hmod]
        _ = n := Nat.div_add_mod n 10

theorem natToDec_digits {n : Nat} : ∀ c ∈ natToDec n, '0' ≤ c ∧ c ≤ '9' := by
  induction n using Nat.strong_induction_on with
  | _ n ih =>
    intro c hc
    by_cases h : n < 10
    · rw [natToDec_lt h] at hc
      simp at hc
      subst hc
      exact digitChar_range n
    · rw [natToDec_ge h] at hc
      rcases List.mem_append.mp hc with h1 | h2
      · exact ih (n / 10) (Nat.div_lt_self (Nat.lt_of_lt_of_le (by norm_num)
          (Nat.not_lt.mp h)) (by norm_num)) c h1
      · simp at h2
        subst h2
        exact digitChar_range _

/-! ## Helper lemmas: collision candidate names -/

theorem candName_data_zero (head dt ext : String) :
    (candName head dt ext 0).data = head.data ++ dt.data ++ ext.data := by
  show (head ++ dt ++ ext).data = _
  simp [sdata_append]

theorem candName_data_succ (head dt ext : String) (k : Nat) :
    (candName head dt ext (k + 1)).data =
      head.data ++ dt.data ++ '-' :: (natToDec (k + 1) ++ ext.data) := by
  show (head ++ dt ++ "-" ++ natToDecStr (k + 1) ++ ext).data = _
  simp [sdata_append, natToDecStr, sdata_mk]

theorem candName_inj (head dt ext : String) :
    ∀ j k : Nat, candName head dt ext j = candName head dt ext k → j = k := by
  have len0 : ∀ k, (candName head dt ext (k + 1)).data.length ≠
      (candName head dt ext 0).data.length := by
    intro k
    rw [candName_data_zero, candName_data_succ]
    simp only [List.length_append, List.length_cons]
    have := List.length_pos_of_ne_nil (natToDec_ne_nil (k + 1))
    omega
  intro j k h
  match j, k with
  | 0, 0 => rfl
  | 0, k + 1 => exact absurd (congrArg (fun s => s.data.length) h).symm (len0 k)
  | j + 1, 0 => exact absurd (congrArg (fun s => s.data.length) h) (len0 j)
  | j + 1, k + 1 =>
    have hd := congrArg String.data h
    rw [candName_data_succ, candName_data_succ] at hd
    simp only [List.append_assoc, List.append_cancel_left_eq, List.cons.injEq,
      true_and] at hd
    have := natToDec_inj (j + 1) (k + 1) (List.append_cancel_right hd)
    omega

theorem candName_head (head dt ext : String) (k : Nat) (c : Char) (rest : List Char)
    (hhd : (head ++ dt).data = c :: rest) :
    (candName head dt ext k).data.head? = some c := by
  have hcd : head.data ++ dt.data = c :: rest := by rw [← sdata_append]; exact hhd
  match k with
  | 0 => rw [candName_data_zero, hcd]; rfl
  | k + 1 => rw [candName_data_succ, hcd]; rfl

theorem pyJoin_data_of_ne_slash (a b : String) (hb : b.data.head? ≠ some '/') :
    (pyJoin a b).data =
      (if a.data = [] ∨ a.data.getLast? = some '/' then a.data ++ b.data
       else a.data ++ '/' :: b.data) := by
  unfold pyJoin
  rw [if_neg hb]
  split <;> rfl

theorem candPath_inj (folder head dt ext : String)
    (hne : (head ++ dt).data ≠ []) :
    ∀ j k : Nat, pyJoin folder (candName head dt ext j) =
      pyJoin folder (candName head dt ext k) → j = k := by
  obtain ⟨c, rest, hcd⟩ : ∃ c rest, (head ++ dt).data = c :: rest := by
    cases hh : (head ++ dt).data with
    | nil => exact absurd hh hne
    | cons c rest => exact ⟨c, rest, rfl⟩
  intro j k h
  by_cases hc : c = '/'
  · subst hc
    have hj : (candName head dt ext j).data.head? = some '/' := candName_head _ _ _ _ _ _ hcd
    have hk : (candName head dt ext k).data.head? = some '/' := candName_head _ _ _ _ _ _ hcd
    unfold pyJoin at h
    rw [if_pos hj, if_pos hk] at h
    exact candName_inj _ _ _ _ _ h
  · have hj : (candName head dt ext j).data.head? ≠ some '/' := by
      rw [candName_head _ _ _ _ _ _ hcd]; simpa using hc
    have hk : (candName head dt ext k).data.head? ≠ some '/' := by
      rw [candName_head _ _ _ _ _ _ hcd]; simpa using hc
    have hd := congrArg String.data h
    rw [pyJoin_data_of_ne_slash _ _ hj, pyJoin_data_of_ne_slash _ _ hk] at hd
    apply candName_inj head dt ext j k
    apply seq_of_data
    split at hd
    · exact List.append_cancel_left hd
    · have h2 := List.append_cancel_left hd
      injection h2

/-! ## Helper lemmas: path splitting -/

theorem revTail_pred_iff (c0 x : Char) :
    (fun c => decide ¬ (c = c0)) x = true ↔ x ≠ c0 := by simp

theorem revTail_no {c0 : Char} {l : List Char} (h : c0 ∉ l) : revTail c0 l = l := by
  unfold revTail
  rw [takeWhile_all, List.reverse_reverse]
  intro x hx
  rw [List.mem_reverse] at hx
  simp only [decide_eq_true_eq]
  exact fun he => h (he ▸ hx)

theorem revTail_append {c0 : Char} {A N : List Char} (h : c0 ∉ N) :
    revTail c0 (A ++ N) = revTail c0 A ++ N := by
  unfold revTail
  rw [List.reverse_append, takeWhile_append_all ?_, List.reverse_append,
    List.reverse_reverse]
  intro x hx
  rw [List.mem_reverse] at hx
  simp only [decide_eq_true_eq]
  exact fun he => h (he ▸ hx)

theorem revTail_append_stop {c0 : Char} {A N : List Char} (h : c0 ∉ N) :
    revTail c0 (A ++ c0 :: N) = N := by
  have : A ++ c0 :: N = (A ++ [c0]) ++ N := by simp
  rw [this, revTail_append h]
  unfold revTail
  rw [List.reverse_append]
  simp only [List.reverse_cons, List.reverse_nil, List.nil_append,
    List.singleton_append, List.takeWhile_cons]
  simp

theorem revTail_not_mem (c0 : Char) (l : List Char) : c0 ∉ revTail c0 l := by
  intro h
  unfold revTail at h
  rw [List.mem_reverse] at h
  have := List.mem_takeWhile_imp h
  simp at this

theorem revTail_length_le (c0 : Char) (l : List Char) :
    (revTail c0 l).length ≤ l.length := by
  unfold revTail
  rw [List.length_reverse]
  calc (l.reverse.takeWhile _).length ≤ l.reverse.length := takeWhile_length_le _ _
    _ = l.length := List.length_reverse l

theorem dropWhile_cons_pred {α : Type} {p : α → Bool} :
    ∀ {l : List α} {d : α} {ds : List α}, l.dropWhile p = d :: ds → p d = false := by
  intro l
  induction l with
  | nil => intro d ds h; simp [List.dropWhile] at h
  | cons a t ih =>
      intro d ds h
      rw [List.dropWhile_cons] at h
      cases hpa : p a
      · rw [hpa] at h
        simp at h
        rw [← h.1]
        exact hpa
      · rw [hpa] at h
        simp at h
        exact ih h

theorem revTail_suffix (c0 : Char) (l : List Char) : revTail c0 l <:+ l := by
  unfold revTail
  nth_rewrite 2 [← List.reverse_reverse l]
  exact List.reverse_suffix.mpr (List.takeWhile_prefix _)

/-- When the `c0`-free suffix is proper, the character right before it is `c0`. -/
theorem revTail_proper {c0 : Char} {l : List Char}
    (h : (revTail c0 l).length ≠ l.length) :
    ∃ A, l = A ++ c0 :: revTail c0 l := by
  rcases hdw : l.reverse.dropWhile (fun c => decide ¬ (c = c0)) with _ | ⟨d, ds⟩
  case nil =>
    exfalso
    apply h
    have hsplit := List.takeWhile_append_dropWhile (fun c => decide ¬ (c = c0)) l.reverse
    rw [hdw, List.append_nil] at hsplit
    unfold revTail
    rw [hsplit, List.reverse_reverse]
  case cons =>
    have hd : d = c0 := by
      have := dropWhile_cons_pred hdw
      simpa using this
    rw [hd] at hdw
    have hsplit := List.takeWhile_append_dropWhile (fun c => decide ¬ (c = c0)) l.reverse
    rw [hdw] at hsplit
    refine ⟨ds.reverse, ?_⟩
    calc l = l.reverse.reverse := (List.reverse_reverse l).symm
      _ = ((l.reverse.takeWhile (fun c => decide ¬ (c = c0))) ++ c0 :: ds).reverse := by
            rw [hsplit]
      _ = (c0 :: ds).reverse ++ (l.reverse.takeWhile (fun c => decide ¬ (c = c0))).reverse := by
            rw [List.reverse_append]
      _ = ds.reverse ++ [c0] ++ (l.reverse.takeWhile (fun c => decide ¬ (c = c0))).reverse := by
            rw [List.reverse_cons]
      _ = ds.reverse ++ c0 :: revTail c0 l := by
            rw [List.append_assoc, List.singleton_append]
            rfl

theorem splitTail_no_slash {l : List Char} (h : '/' ∉ l) : splitTail l = l :=
  revTail_no h

theorem splitTail_not_mem (l : List Char) : '/' ∉ splitTail l :=
  revTail_not_mem '/' l

/-- The tail component of `pySplit` is the basename `splitTail`. -/
theorem pySplit_snd (p : String) : (pySplit p).2 = ⟨splitTail p.data⟩ := rfl

theorem pySplit_snd_no_slash (p : String) : '/' ∉ (pySplit p).2.data :=
  splitTail_not_mem p.data

/-- Splitting a joined path recovers the joined name (for a slash-free,
non-empty name that does not begin with a slash). -/
theorem pySplit_snd_join (folder nn : String)
    (hhd : nn.data.head? ≠ some '/') (hns : '/' ∉ nn.data) :
    (pySplit (pyJoin folder nn)).2 = nn := by
  have hdata := pyJoin_data_of_ne_slash folder nn hhd
  rw [pySplit_snd, hdata]
  by_cases hcond : folder.data = [] ∨ folder.data.getLast? = some '/'
  · rw [if_pos hcond]
    rcases hcond with hnil | hlast
    · rw [hnil, List.nil_append]
      unfold splitTail
      rw [revTail_no hns, smk_data]
    · obtain ⟨A, hA⟩ := List.getLast?_eq_some_iff.mp hlast
      rw [hA, List.append_assoc, List.singleton_append]
      unfold splitTail
      rw [revTail_append_stop hns, smk_data]
  · rw [if_neg hcond]
    unfold splitTail
    rw [revTail_append_stop hns, smk_data]

/-! ## Helper lemmas: extension splitting -/

theorem pySplitext_no_dot {l : List Char} (h : '.' ∉ l) :
    pySplitext ⟨l⟩ = (⟨l⟩, "") := by
  unfold pySplitext
  simp only [sdata_mk]
  rw [if_neg]
  intro hc
  obtain ⟨h1, _⟩ := hc
  rw [revTail_no h] at h1
  exact absurd h1 (Nat.not_lt.mpr (revTail_length_le '/' l))

theorem pySplitext_built {Bd s : List Char} (hsd : '.' ∉ s) (hss : '/' ∉ s)
    (hB : ∃ x ∈ splitTail Bd, ¬ x = '.') :
    pySplitext ⟨Bd ++ '.' :: s⟩ = (⟨Bd⟩, ⟨'.' :: s⟩) := by
  have haft : revTail '.' (Bd ++ '.' :: s) = s := revTail_append_stop hsd
  have hds : '/' ∉ ('.' :: s) := by
    intro hx
    rcases List.mem_cons.mp hx with h1 | h2
    · exact absurd h1 (by decide)
    · exact hss h2
  have hbn : revTail '/' (Bd ++ '.' :: s) = revTail '/' Bd ++ '.' :: s :=
    revTail_append hds
  unfold pySplitext
  simp only [sdata_mk]
  rw [haft, hbn]
  rw [if_pos ?hc]
  case hc =>
    constructor
    · simp only [List.length_append, List.length_cons]
      omega
    · have h1 : (revTail '/' Bd ++ '.' :: s).length - s.length - 1 =
          (revTail '/' Bd).length := by
        simp only [List.length_append, List.length_cons]
        omega
      rw [h1, List.take_left, List.any_eq_true]
      obtain ⟨x, hx1, hx2⟩ := hB
      exact ⟨x, hx1, by simpa using hx2⟩
  have h2 : (Bd ++ '.' :: s).length - s.length - 1 = Bd.length := by
    simp only [List.length_append, List.length_cons]
    omega
  rw [h2, List.take_left, List.drop_left]

/-- The decomposition `pySplitext` performs: root plus extension is the
path, and the extension is empty or a dot followed by dot-free, slash-free
characters. -/
theorem pySplitext_shape (p : String) :
    p.data = (pySplitext p).1.data ++ (pySplitext p).2.data ∧
    ((pySplitext p).2.data = [] ∨
      ∃ s, (pySplitext p).2.data = '.' :: s ∧ '.' ∉ s ∧ '/' ∉ s) := by
  unfold pySplitext
  by_cases hc : (revTail '.' p.data).length < (revTail '/' p.data).length ∧
      ((revTail '/' p.data).take ((revTail '/' p.data).length -
        (revTail '.' p.data).length - 1)).any (fun c => ¬ (c = '.')) = true
  · rw [if_pos hc]
    have haft_lt : (revTail '.' p.data).length ≠ p.data.length := by
      have := revTail_length_le '/' p.data
      omega
    obtain ⟨A, hA⟩ := revTail_proper haft_lt
    have hAlen : p.data.length - (revTail '.' p.data).length - 1 = A.length := by
      have := congrArg List.length hA
      simp only [List.length_append, List.length_cons] at this
      omega
    constructor
    · exact (List.take_append_drop _ _).symm
    · right
      refine ⟨revTail '.' p.data, ?_, revTail_not_mem '.' p.data, ?_⟩
      · show p.data.drop (p.data.length - (revTail '.' p.data).length - 1) = _
        rw [hAlen]
        conv_lhs => rw [hA]
        exact List.drop_left A _
      · have hsuf1 : revTail '.' p.data <:+ p.data := revTail_suffix _ _
        have hsuf2 : revTail '/' p.data <:+ p.data := revTail_suffix _ _
        have hsub : revTail '.' p.data <:+ revTail '/' p.data :=
          List.suffix_of_suffix_length_le hsuf1 hsuf2 (Nat.le_of_lt hc.1)
        intro hx
        exact revTail_not_mem '/' p.data (hsub.subset hx)
  · rw [if_neg hc]
    exact ⟨by simp, Or.inl rfl⟩

/-! ## Helper lemmas: the classifier's character structure -/

theorem yearOk_digits {c0 c1 c2 c3 : Char} (h : yearOk c0 c1 c2 c3 = true) :
    ('0' ≤ c0 ∧ c0 ≤ '9') ∧ ('0' ≤ c1 ∧ c1 ≤ '9') ∧
    ('0' ≤ c2 ∧ c2 ≤ '9') ∧ ('0' ≤ c3 ∧ c3 ≤ '9') := by
  simp only [yearOk, isDig, Bool.and_eq_true, Bool.or_eq_true, decide_eq_true_eq] at h
  rcases h with (⟨⟨⟨h0, h1⟩, h2⟩, h3⟩ | ⟨⟨⟨h0, h1⟩, h2⟩, h3⟩) | ⟨⟨⟨h0, h1⟩, h2⟩, h3⟩
  · subst h0; subst h1
    exact ⟨by decide, by decide, ⟨le_trans (by decide) h2.1, h2.2⟩, h3⟩
  · subst h0; subst h1
    exact ⟨by decide, by decide, h2, h3⟩
  · subst h0; subst h1; subst h2; subst h3
    exact ⟨by decide, by decide, by decide, by decide⟩

theorem monthOk_digits {c4 c5 : Char} (h : monthOk c4 c5 = true) :
    ('0' ≤ c4 ∧ c4 ≤ '9') ∧ ('0' ≤ c5 ∧ c5 ≤ '9') := by
  simp only [monthOk, Bool.and_eq_true, Bool.or_eq_true, decide_eq_true_eq] at h
  rcases h with ⟨h0, h1⟩ | ⟨h0, h1⟩
  · subst h0
    exact ⟨by decide, le_trans (by decide) h1.1, h1.2⟩
  · subst h0
    exact ⟨by decide, h1.1, le_trans h1.2 (by decide)⟩

theorem dayOk_digits {c6 c7 : Char} (h : dayOk c6 c7 = true) :
    ('0' ≤ c6 ∧ c6 ≤ '9') ∧ ('0' ≤ c7 ∧ c7 ≤ '9') := by
  simp only [dayOk, isDig, Bool.and_eq_true, Bool.or_eq_true, decide_eq_true_eq] at h
  rcases h with (⟨h0, h1⟩ | ⟨h0, h1⟩) | ⟨h0, h1⟩
  · subst h0
    exact ⟨by decide, le_trans (by decide) h1.1, h1.2⟩
  · rcases h0 with h0 | h0 <;> subst h0 <;> exact ⟨by decide, h1⟩
  · subst h0
    rcases h1 with h1 | h1 <;> subst h1 <;> exact ⟨by decide, by decide⟩

theorem hourOk_digits {c9 c10 : Char} (h : hourOk c9 c10 = true) :
    ('0' ≤ c9 ∧ c9 ≤ '9') ∧ ('0' ≤ c10 ∧ c10 ≤ '9') := by
  simp only [hourOk, isDig, Bool.and_eq_true, Bool.or_eq_true, decide_eq_true_eq] at h
  rcases h with ⟨h0, h1⟩ | ⟨h0, h1⟩
  · rcases h0 with h0 | h0 <;> subst h0 <;> exact ⟨by decide, h1⟩
  · subst h0
    exact ⟨by decide, h1.1, le_trans h1.2 (by decide)⟩

theorem minSecOk_digits {ca cb : Char} (h : minSecOk ca cb = true) :
    ('0' ≤ ca ∧ ca ≤ '9') ∧ ('0' ≤ cb ∧ cb ≤ '9') := by
  simp only [minSecOk, isDig, Bool.and_eq_true, decide_eq_true_eq] at h
  exact ⟨⟨h.1.1, le_trans h.1.2 (by decide)⟩, h.2⟩

/-- A matching string decomposes into a valid fifteen-character core (all
digits and one underscore) and an empty-or-newline remainder. -/
theorem dtm_decomp {l : List Char} (h : dtmCore l = true) :
    ∃ c15 rest, l = c15 ++ rest ∧ c15.length = 15 ∧ dtmCore c15 = true ∧
      (rest = [] ∨ rest = ['\n']) ∧
      ∀ c ∈ c15, ('0' ≤ c ∧ c ≤ '9') ∨ c = '_' := by
  rcases l with _ | ⟨c0, _ | ⟨c1, _ | ⟨c2, _ | ⟨c3, _ | ⟨c4, _ | ⟨c5, _ | ⟨c6, _ |
    ⟨c7, _ | ⟨c8, _ | ⟨c9, _ | ⟨c10, _ | ⟨c11, _ | ⟨c12, _ | ⟨c13, _ | ⟨c14, rest⟩⟩⟩⟩⟩⟩⟩⟩⟩⟩⟩⟩⟩⟩⟩ <;>
    try exact absurd h Bool.false_ne_true
  simp only [dtmCore, Bool.and_eq_true] at h
  obtain ⟨⟨⟨⟨⟨⟨⟨hy, hm⟩, hd⟩, h8⟩, hh⟩, hs1⟩, hs2⟩, hr⟩ := h
  have h8' : c8 = '_' := by simpa using h8
  refine ⟨[c0, c1, c2, c3, c4, c5, c6, c7, c8, c9, c10, c11, c12, c13, c14], rest,
    rfl, rfl, ?_, ?_, ?_⟩
  · simp only [dtmCore, Bool.and_eq_true]
    exact ⟨⟨⟨⟨⟨⟨⟨hy, hm⟩, hd⟩, h8⟩, hh⟩, hs1⟩, hs2⟩, by simp⟩
  · rcases Bool.or_eq_true .. |>.mp hr with h1 | h1
    · left
      simpa using h1
    · right
      simpa using h1
  · obtain ⟨d0, d1, d2, d3⟩ := yearOk_digits hy
    obtain ⟨d4, d5⟩ := monthOk_digits hm
    obtain ⟨d6, d7⟩ := dayOk_digits hd
    obtain ⟨d9, d10⟩ := hourOk_digits hh
    obtain ⟨d11, d12⟩ := minSecOk_digits hs1
    obtain ⟨d13, d14⟩ := minSecOk_digits hs2
    intro c hc
    simp only [List.mem_cons, List.not_mem_nil, or_false] at hc
    rcases hc with rfl | rfl | rfl | rfl | rfl | rfl | rfl | rfl | rfl | rfl | rfl |
      rfl | rfl | rfl | rfl <;>
      first
        | exact Or.inl (by assumption)
        | exact Or.inr (by assumption)

/-- The facts the run needs about a string the classifier accepts: it is at
least fifteen characters, contains no dot and no slash in its first
fifteen characters nor a dot or slash later (only a possible final
newline), and its first fifteen characters still satisfy the classifier
after any text is appended. -/
theorem is_date_time_props {dt : String} (h : is_date_time dt = true) :
    15 ≤ dt.data.length ∧ '.' ∉ dt.data ∧ '/' ∉ dt.data ∧
    ∀ sfx : List Char, is_date_time ⟨(dt.data ++ sfx).take 15⟩ = true := by
  obtain ⟨c15, rest, hl, hlen, hcore, hrest, hchars⟩ := dtm_decomp h
  have hnodot : ∀ c ∈ dt.data, ¬ (c = '.') ∧ ¬ (c = '/') := by
    intro c hc
    rw [hl] at hc
    rcases List.mem_append.mp hc with h1 | h2
    · rcases hchars c h1 with hd | hu
      · constructor <;> rintro rfl <;> revert hd <;> decide
      · subst hu
        exact ⟨by decide, by decide⟩
    · rcases hrest with hr | hr <;> rw [hr] at h2
      · exact absurd h2 (List.not_mem_nil c)
      · have : c = '\n' := by simpa using h2
        subst this
        exact ⟨by decide, by decide⟩
  refine ⟨?_, ?_, ?_, ?_⟩
  · rw [hl]
    simp only [List.length_append]
    omega
  · intro hc
    exact (hnodot _ hc).1 rfl
  · intro hc
    exact (hnodot _ hc).2 rfl
  · intro sfx
    have htake : (dt.data ++ sfx).take 15 = c15 := by
      rw [hl, List.append_assoc, ← hlen, List.take_left]
    rw [htake]
    show dtmCore c15 = true
    exact hcore

/-! ## Helper lemmas: the selector -/

theorem excludedLoop_eq_any (f_base : String) :
    ∀ heads : List String, excludedLoop f_base heads =
      heads.any (fun f_head => pyStartswith f_base f_head &&
        is_date_time (pySlice f_base f_head.length 15)) := by
  intro heads
  induction heads with
  | nil => rfl
  | cons hd tl ih =>
      show (if pyStartswith f_base hd && is_date_time (pySlice f_base hd.length 15)
            then true else excludedLoop f_base tl) = _
      rw [List.any_cons, ← ih]
      cases hc : (pyStartswith f_base hd && is_date_time (pySlice f_base hd.length 15)) <;>
        simp [hc]

theorem mem_filter_by_name {paths heads : List String} {p : String} :
    p ∈ filter_by_name paths heads ↔ p ∈ paths ∧
      excludedLoop (pySplitext (pySplit p).2).1 heads = false := by
  unfold filter_by_name
  rw [List.mem_filter]
  constructor
  · rintro ⟨h1, h2⟩
    exact ⟨h1, by simpa using h2⟩
  · rintro ⟨h1, h2⟩
    exact ⟨h1, by simpa using h2⟩

/-! ## Helper lemmas: the collision loop -/

theorem find_loop_shape (files : List String) (folder head dt ext : String) :
    ∀ fuel i, ∃ k, i ≤ k ∧ find_loop files folder head dt ext fuel i =
      pyJoin folder (candName head dt ext k) := by
  intro fuel
  induction fuel with
  | zero => exact fun i => ⟨i, Nat.le_refl _, rfl⟩
  | succ n ih =>
      intro i
      by_cases hc : pyJoin folder (candName head dt ext i) ∈ files
      · obtain ⟨k, hk1, hk2⟩ := ih (i + 1)
        refine ⟨k, by omega, ?_⟩
        show (if pyJoin folder (candName head dt ext i) ∈ files then _ else _) = _
        rw [if_pos hc]
        exact hk2
      · refine ⟨i, Nat.le_refl _, ?_⟩
        show (if pyJoin folder (candName head dt ext i) ∈ files then _ else _) = _
        rw [if_neg hc]

theorem find_loop_least (files : List String) (folder head dt ext : String) :
    ∀ j fuel i, j < fuel →
      (∀ l, l < j → pyJoin folder (candName head dt ext (i + l)) ∈ files) →
      pyJoin folder (candName head dt ext (i + j)) ∉ files →
      find_loop files folder head dt ext fuel i =
        pyJoin folder (candName head dt ext (i + j)) := by
  intro j
  induction j with
  | zero =>
      intro fuel i hfuel _ hfree
      simp only [Nat.add_zero] at hfree ⊢
      match fuel, hfuel with
      | n + 1, _ =>
        show (if pyJoin folder (candName head dt ext i) ∈ files then _ else _) = _
        rw [if_neg hfree]
  | succ m ih =>
      intro fuel i hfuel hmem hfree
      match fuel, hfuel with
      | n + 1, hf =>
        show (if pyJoin folder (candName head dt ext i) ∈ files then _ else _) = _
        rw [if_pos (by simpa using hmem 0 (Nat.succ_pos m))]
        have harg : i + 1 + m = i + (m + 1) := by omega
        have hmem' : ∀ l, l < m → pyJoin folder (candName head dt ext (i + 1 + l)) ∈ files := by
          intro l hl
          have h2 : i + 1 + l = i + (l + 1) := by omega
          rw [h2]
          exact hmem (l + 1) (by omega)
        have hfree' : pyJoin folder (candName head dt ext (i + 1 + m)) ∉ files := by
          rw [harg]
          exact hfree
        have := ih n (i + 1) (by omega) hmem' hfree'
        rw [this, harg]

/-! ## Helper lemmas: the resolver's branches -/

theorem os_rename_pos {w : World} {old new : String}
    (h : old ∈ w.files ∧ new ∉ w.files ∧ w.renameFails old new = false) :
    os_rename w old new =
      (true, { w with files := new :: w.files.erase old,
                      renameLog := (old, new) :: w.renameLog }) := by
  unfold os_rename
  rw [if_pos h]

theorem os_rename_neg {w : World} {old new : String}
    (h : ¬ (old ∈ w.files ∧ new ∉ w.files ∧ w.renameFails old new = false)) :
    os_rename w old new = (false, w) := by
  unfold os_rename
  rw [if_neg h]

theorem rn_by_exif_raised {w : World} {path head : String}
    (h : ¬ (path ∈ w.files ∧ w.openFails path = false)) :
    rn_by_exif w path head =
      (RnResult.raised,
        crash (print w ("Error: cannot access the image '" ++ path ++ "'.\n"))) := by
  unfold rn_by_exif
  rw [if_neg h]

theorem rn_by_exif_no_exif {w : World} {path head : String}
    (hmem : path ∈ w.files) (hop : w.openFails path = false)
    (hex : w.exif path = Option.none) :
    rn_by_exif w path head =
      (RnResult.none, print w ("- Not enough Exif info. to rename '" ++ path ++ "'")) := by
  unfold rn_by_exif
  rw [if_pos ⟨hmem, hop⟩, hex]

theorem rn_by_exif_with_exif {w : World} {path head raw : String}
    (hmem : path ∈ w.files) (hop : w.openFails path = false)
    (hex : w.exif path = some raw) :
    rn_by_exif w path head =
      (let np := find_loop w.files (pySplit path).1 head (fmtExif raw)
        (pySplitext (pySplit path).2).2 (w.files.length + 1) 0
       let r := os_rename w path np
       if r.1 then (RnResult.ok np, r.2)
       else (RnResult.none,
             print r.2 ("Error: cannot rename '" ++ path ++ "' to '" ++ np ++ "'\n"))) := by
  unfold rn_by_exif
  rw [if_pos ⟨hmem, hop⟩, hex]

theorem rn_by_exif_ok {w : World} {path head raw np : String}
    (hmem : path ∈ w.files) (hop : w.openFails path = false)
    (hex : w.exif path = some raw)
    (hnp : np = find_loop w.files (pySplit path).1 head (fmtExif raw)
      (pySplitext (pySplit path).2).2 (w.files.length + 1) 0)
    (hfree : np ∉ w.files) (hrn : w.renameFails path np = false) :
    rn_by_exif w path head =
      (RnResult.ok np, { w with files := np :: w.files.erase path,
                                renameLog := (path, np) :: w.renameLog }) := by
  subst hnp
  rw [rn_by_exif_with_exif hmem hop hex]
  show (if (os_rename w path _).1 then _ else _) = _
  rw [os_rename_pos ⟨hmem, hfree, hrn⟩]
  rfl

theorem rn_by_exif_rename_fails {w : World} {path head raw np : String}
    (hmem : path ∈ w.files) (hop : w.openFails path = false)
    (hex : w.exif path = some raw)
    (hnp : np = find_loop w.files (pySplit path).1 head (fmtExif raw)
      (pySplitext (pySplit path).2).2 (w.files.length + 1) 0)
    (hcond : ¬ (path ∈ w.files ∧ np ∉ w.files ∧ w.renameFails path np = false)) :
    rn_by_exif w path head =
      (RnResult.none,
        print w ("Error: cannot rename '" ++ path ++ "' to '" ++ np ++ "'\n")) := by
  subst hnp
  rw [rn_by_exif_with_exif hmem hop hex]
  show (if (os_rename w path _).1 then _ else _) = _
  rw [os_rename_neg hcond]
  rfl

/-- A call that returns `None` changed neither the file set, nor the rename
log, nor the crash flag (it only printed). -/
theorem rn_by_exif_frame_none {w : World} {path head : String}
    (h : (rn_by_exif w path head).1 = RnResult.none) :
    (rn_by_exif w path head).2.files = w.files ∧
    (rn_by_exif w path head).2.renameLog = w.renameLog ∧
    (rn_by_exif w path head).2.crashed = w.crashed := by
  by_cases hc : path ∈ w.files ∧ w.openFails path = false
  · cases hex : w.exif path with
    | none =>
        rw [rn_by_exif_no_exif hc.1 hc.2 hex]
        exact ⟨rfl, rfl, rfl⟩
    | some raw =>
        by_cases hcond : path ∈ w.files ∧
            find_loop w.files (pySplit path).1 head (fmtExif raw)
              (pySplitext (pySplit path).2).2 (w.files.length + 1) 0 ∉ w.files ∧
            w.renameFails path (find_loop w.files (pySplit path).1 head (fmtExif raw)
              (pySplitext (pySplit path).2).2 (w.files.length + 1) 0) = false
        · rw [rn_by_exif_ok hc.1 hc.2 hex rfl hcond.2.1 hcond.2.2] at h
          exact absurd h (by simp)
        · rw [rn_by_exif_rename_fails hc.1 hc.2 hex rfl hcond]
          exact ⟨rfl, rfl, rfl⟩
  · rw [rn_by_exif_raised hc] at h
    exact absurd h (by simp)

theorem rn_mov_pos {w : World} {lmov_path limg_path : String}
    (h : lmov_path ∈ w.files ∧
      (pySplitext limg_path).1 ++ (pySplitext lmov_path).2 ∉ w.files ∧
      w.renameFails lmov_path ((pySplitext limg_path).1 ++ (pySplitext lmov_path).2) = false) :
    rn_mov w lmov_path limg_path =
      (some ((pySplitext limg_path).1 ++ (pySplitext lmov_path).2),
       { w with files := ((pySplitext limg_path).1 ++ (pySplitext lmov_path).2) ::
                  w.files.erase lmov_path,
                renameLog := (lmov_path,
                  (pySplitext limg_path).1 ++ (pySplitext lmov_path).2) :: w.renameLog }) := by
  unfold rn_mov
  show (if (os_rename w lmov_path _).1 then _ else _) = _
  rw [os_rename_pos h]
  rfl

theorem rn_mov_neg {w : World} {lmov_path limg_path : String}
    (h : ¬ (lmov_path ∈ w.files ∧
      (pySplitext limg_path).1 ++ (pySplitext lmov_path).2 ∉ w.files ∧
      w.renameFails lmov_path ((pySplitext limg_path).1 ++ (pySplitext lmov_path).2) = false)) :
    rn_mov w lmov_path limg_path =
      (Option.none,
       print w ("Error: cannot rename '" ++ lmov_path ++ "' to '" ++
         ((pySplitext limg_path).1 ++ (pySplitext lmov_path).2) ++ "'\n")) := by
  unfold rn_mov
  show (if (os_rename w lmov_path _).1 then _ else _) = _
  rw [os_rename_neg h]
  rfl

/-! ## Claim theorems -/

/-- C1 (code_bug): the claim states that `is_date_time` returns `False` for
every string whose length is not 15, matching the docstring's "15
characters".  But `re.match`'s `$` also matches just before a single final
newline, so the 16-character string `"20230406_175047\n"` is accepted.  The
theorem evaluates the classifier at the failing input, together with
sanity evaluations at the spec's own examples. -/
theorem c1_is_date_time_newline_bug :
    is_date_time "20230406_175047\n" = true ∧
    ("20230406_175047\n").data.length = 16 ∧
    is_date_time "20230406_175047" = true ∧
    is_date_time "20231306_175047" = false ∧
    is_date_time "19690406_175047" = false := by
  refine ⟨by decide, by decide, by decide, by decide, by decide⟩

/-- C2 (code_bug): the claim states that an access error while reading the
image's metadata is caught and reported and the call returns, the run
continuing.  The `except` branch indeed prints the report, but it does not
return: the following `if tag_date in tags` reads the never-assigned local
`tags` and raises `UnboundLocalError`, which propagates and aborts the
run.  Modelled by the `raised` outcome and the `crashed` flag. -/
theorem c2_rn_by_exif_access_error_raises (w : World) (path head : String)
    (h : w.openFails path = true) :
    (rn_by_exif w path head).1 = RnResult.raised ∧
    (rn_by_exif w path head).2.crashed = true ∧
    (rn_by_exif w path head).2.files = w.files ∧
    (rn_by_exif w path head).2.log =
      ("Error: cannot access the image '" ++ path ++ "'.\n") :: w.log := by
  have hc : ¬ (path ∈ w.files ∧ w.openFails path = false) := by
    rintro ⟨_, h2⟩
    rw [h] at h2
    exact absurd h2 (by decide)
  rw [rn_by_exif_raised hc]
  exact ⟨rfl, rfl, rfl, rfl⟩

def c2World : World :=
  { files := ["d/a.jpg"], exif := fun _ => some "2023:04:06 17:50:47",
    openFails := fun p => p = "d/a.jpg", renameFails := fun _ _ => false,
    listdirFails := fun _ => false, log := [], renameLog := [], crashed := false }

theorem c2_witness :
    (rn_by_exif c2World "d/a.jpg" "IMG_").1 = RnResult.raised ∧
    (rn_by_exif c2World "d/a.jpg" "IMG_").2.crashed = true ∧
    (rn_by_exif c2World "d/a.jpg" "IMG_").2.files = c2World.files ∧
    (rn_by_exif c2World "d/a.jpg" "IMG_").2.log =
      ("Error: cannot access the image '" ++ "d/a.jpg" ++ "'.\n") :: c2World.log :=
  c2_rn_by_exif_access_error_raises c2World "d/a.jpg" "IMG_" (by decide)

/-- C5 (confirmed): `filter_by_name` excludes a path exactly when some
prefix of the given set is a prefix of the path's extension-stripped
basename and the fifteen characters right after it satisfy the
classifier; all other paths are kept.  The embedded inner loop
(`excludedLoop`) is the script's first-match short-circuit. -/
theorem c5_filter_by_name_spec (paths f_heads : List String) (path : String) :
    path ∈ filter_by_name paths f_heads ↔
      path ∈ paths ∧
      ¬ ∃ f_head ∈ f_heads,
          pyStartswith (pySplitext (pySplit path).2).1 f_head = true ∧
          is_date_time
            (pySlice (pySplitext (pySplit path).2).1 f_head.length 15) = true := by
  rw [mem_filter_by_name, excludedLoop_eq_any]
  constructor
  · rintro ⟨h1, h2⟩
    refine ⟨h1, ?_⟩
    rintro ⟨hd, hmem, hs, hdt⟩
    have hany : f_heads.any (fun f_head =>
        pyStartswith (pySplitext (pySplit path).2).1 f_head &&
        is_date_time (pySlice (pySplitext (pySplit path).2).1 f_head.length 15)) = true :=
      List.any_eq_true.mpr ⟨hd, hmem, by rw [Bool.and_eq_true]; exact ⟨hs, hdt⟩⟩
    rw [hany] at h2
    exact absurd h2 (by decide)
  · rintro ⟨h1, h2⟩
    refine ⟨h1, ?_⟩
    cases hany : f_heads.any (fun f_head =>
        pyStartswith (pySplitext (pySplit path).2).1 f_head &&
        is_date_time (pySlice (pySplitext (pySplit path).2).1 f_head.length 15))
    · rfl
    · obtain ⟨hd, hmem, hb⟩ := List.any_eq_true.mp hany
      rw [Bool.and_eq_true] at hb
      exact absurd ⟨hd, hmem, hb.1, hb.2⟩ h2

/-- C10 (confirmed): `rn_mov` performs no collision resolution: its target
is always exactly the renamed image's extension-stripped path plus the
clip's original extension, independent of whether that target exists; when
the rename cannot be performed — in particular when a file already exists
at the target (the modelled platform semantics raise then) — the result
is `None` and the file set is unchanged. -/
theorem c10_rn_mov_no_collision_resolution (w : World) (lmov_path limg_path : String) :
    (rn_mov w lmov_path limg_path).1 =
      (if lmov_path ∈ w.files ∧
          (pySplitext limg_path).1 ++ (pySplitext lmov_path).2 ∉ w.files ∧
          w.renameFails lmov_path
            ((pySplitext limg_path).1 ++ (pySplitext lmov_path).2) = false
       then some ((pySplitext limg_path).1 ++ (pySplitext lmov_path).2)
       else Option.none) ∧
    (rn_mov w lmov_path limg_path).2.files =
      (if lmov_path ∈ w.files ∧
          (pySplitext limg_path).1 ++ (pySplitext lmov_path).2 ∉ w.files ∧
          w.renameFails lmov_path
            ((pySplitext limg_path).1 ++ (pySplitext lmov_path).2) = false
       then ((pySplitext limg_path).1 ++ (pySplitext lmov_path).2) ::
              w.files.erase lmov_path
       else w.files) := by
  by_cases hc : lmov_path ∈ w.files ∧
      (pySplitext limg_path).1 ++ (pySplitext lmov_path).2 ∉ w.files ∧
      w.renameFails lmov_path
        ((pySplitext limg_path).1 ++ (pySplitext lmov_path).2) = false
  · rw [rn_mov_pos hc, if_pos hc, if_pos hc]
    exact ⟨rfl, rfl⟩
  · rw [rn_mov_neg hc, if_neg hc, if_neg hc]
    exact ⟨rfl, rfl⟩

/-- C7 (confirmed): when a paired clip's rename succeeds, its new path is
the renamed image's path with the image extension stripped plus the clip's
original extension; consequently the two files carry the same
extension-stripped path and differ only by extension.  The hypotheses fix
the claim's framing: the clip has an extension, and the renamed image's
extension-stripped basename is not made of dots only (true of every name
the resolver produces, which starts with the prefix). -/
theorem c7_paired_clip_same_base (w : World) (lmov_path limg_path np : String)
    (hok : (rn_mov w lmov_path limg_path).1 = some np)
    (hext : (pySplitext lmov_path).2 ≠ "")
    (hbn : ∃ x ∈ splitTail ((pySplitext limg_path).1.data), ¬ x = '.') :
    np = (pySplitext limg_path).1 ++ (pySplitext lmov_path).2 ∧
    (pySplitext np).1 = (pySplitext limg_path).1 ∧
    (pySplitext np).2 = (pySplitext lmov_path).2 := by
  by_cases hc : lmov_path ∈ w.files ∧
      (pySplitext limg_path).1 ++ (pySplitext lmov_path).2 ∉ w.files ∧
      w.renameFails lmov_path
        ((pySplitext limg_path).1 ++ (pySplitext lmov_path).2) = false
  case neg =>
    rw [rn_mov_neg hc] at hok
    exact absurd hok (by simp)
  rw [rn_mov_pos hc] at hok
  have hnp : np = (pySplitext limg_path).1 ++ (pySplitext lmov_path).2 := by
    injection hok with h1
    exact h1.symm
  obtain ⟨_, hshape⟩ := pySplitext_shape lmov_path
  rcases hshape with hnil | ⟨s, hs, hsd, hss⟩
  · exact absurd (seq_of_data (by rw [hnil])) hext
  have hnp_data : np.data = (pySplitext limg_path).1.data ++ '.' :: s := by
    rw [hnp, sdata_append, hs]
  have hbuilt := pySplitext_built hsd hss hbn
  have hnp_eq : np = ⟨(pySplitext limg_path).1.data ++ '.' :: s⟩ :=
    seq_of_data hnp_data
  refine ⟨hnp, ?_, ?_⟩
  · rw [hnp_eq, hbuilt]
  · rw [hnp_eq, hbuilt]
    exact seq_of_data (by rw [sdata_mk, hs])

def c7World : World :=
  { files := ["d/x.MOV", "d/IMG_20230406_175047.JPG"],
    exif := fun _ => Option.none, openFails := fun _ => false,
    renameFails := fun _ _ => false, listdirFails := fun _ => false,
    log := [], renameLog := [], crashed := false }

theorem c7_witness :
    "d/IMG_20230406_175047.MOV" =
      (pySplitext "d/IMG_20230406_175047.JPG").1 ++ (pySplitext "d/x.MOV").2 ∧
    (pySplitext "d/IMG_20230406_175047.MOV").1 =
      (pySplitext "d/IMG_20230406_175047.JPG").1 ∧
    (pySplitext "d/IMG_20230406_175047.MOV").2 = (pySplitext "d/x.MOV").2 :=
  c7_paired_clip_same_base c7World "d/x.MOV" "d/IMG_20230406_175047.JPG"
    "d/IMG_20230406_175047.MOV" (by decide) (by decide) (by decide)

/-! ## Helper lemmas: phase 2 and its summary line -/

theorem print_fields (w : World) (s : String) :
    (print w s).files = w.files ∧ (print w s).crashed = w.crashed ∧
    (print w s).renameLog = w.renameLog ∧ (print w s).log = s :: w.log :=
  ⟨rfl, rfl, rfl, rfl⟩

theorem select_by_exts_crashed (w : World) (dir : String) (exts : List String) :
    (select_by_exts w dir exts).2.crashed = w.crashed := by
  unfold select_by_exts
  split <;> rfl

theorem select_by_exts_files (w : World) (dir : String) (exts : List String) :
    (select_by_exts w dir exts).2.files = w.files := by
  unfold select_by_exts
  split <;> rfl

theorem select_by_exts_renameLog (w : World) (dir : String) (exts : List String) :
    (select_by_exts w dir exts).2.renameLog = w.renameLog := by
  unfold select_by_exts
  split <;> rfl

theorem phase2_loop_crashed_id {w : World} (h : w.crashed = true) :
    ∀ ps : List String, phase2_loop w ps = w := by
  intro ps
  cases ps with
  | nil => rfl
  | cons p rest =>
      show (if w.crashed then w else _) = w
      rw [h]
      simp

/-- After a non-crashed call either the flag is still clear, or the call
raised and its access-error report is the most recent line. -/
theorem rn_by_exif_crashed_cases {w : World} {path head : String}
    (h0 : w.crashed = false) :
    (rn_by_exif w path head).2.crashed = false ∨
    ((rn_by_exif w path head).2.crashed = true ∧
     (rn_by_exif w path head).2.log.head? =
       some ("Error: cannot access the image '" ++ path ++ "'.\n")) := by
  by_cases hc : path ∈ w.files ∧ w.openFails path = false
  · left
    cases hex : w.exif path with
    | none =>
        rw [rn_by_exif_no_exif hc.1 hc.2 hex]
        exact h0
    | some raw =>
        by_cases hcond : path ∈ w.files ∧
            find_loop w.files (pySplit path).1 head (fmtExif raw)
              (pySplitext (pySplit path).2).2 (w.files.length + 1) 0 ∉ w.files ∧
            w.renameFails path (find_loop w.files (pySplit path).1 head (fmtExif raw)
              (pySplitext (pySplit path).2).2 (w.files.length + 1) 0) = false
        · rw [rn_by_exif_ok hc.1 hc.2 hex rfl hcond.2.1 hcond.2.2]
          exact h0
        · rw [rn_by_exif_rename_fails hc.1 hc.2 hex rfl hcond]
          exact h0
  · right
    rw [rn_by_exif_raised hc]
    exact ⟨rfl, rfl⟩

/-- Either the still-rename loop finishes with the crash flag clear, or it
aborted on an access error and that report is the last line printed. -/
theorem phase2_loop_cases :
    ∀ (ps : List String) (w : World), w.crashed = false →
    (phase2_loop w ps).crashed = false ∨
    ((phase2_loop w ps).crashed = true ∧
     ∃ p, (phase2_loop w ps).log.head? =
       some ("Error: cannot access the image '" ++ p ++ "'.\n")) := by
  intro ps
  induction ps with
  | nil => exact fun w h => Or.inl h
  | cons p rest ih =>
      intro w h
      have hstep : phase2_loop w (p :: rest) =
          phase2_loop (rn_by_exif (print w ("Renaming: " ++ p)) p "IMG_").2 rest := by
        show (if w.crashed then w else _) = _
        rw [if_neg (by simp [h])]
      rw [hstep]
      have hpc : (print w ("Renaming: " ++ p)).crashed = false := h
      rcases @rn_by_exif_crashed_cases _ p "IMG_" hpc with h1 | ⟨h1, h2⟩
      · exact ih _ h1
      · rw [phase2_loop_crashed_id h1 rest]
        exact Or.inr ⟨h1, p, h2⟩

theorem err_ne_done (p : String) :
    ("Error: cannot access the image '" ++ p ++ "'.\n") ≠ "Done." := by
  cases p with
  | mk pd =>
    intro h
    have hd := congrArg (fun s => s.data.head?) h
    simp only at hd
    rw [show (("Error: cannot access the image '" ++ String.mk pd ++ "'.\n")).data.head?
        = some 'E' from rfl] at hd
    rw [show ("Done." : String).data.head? = some 'D' from rfl] at hd
    exact absurd hd (by decide)

def c3World : World :=
  { files := ["d/a.jpg"], exif := fun _ => Option.none,
    openFails := fun _ => false, renameFails := fun _ _ => false,
    listdirFails := fun _ => false, log := [], renameLog := [], crashed := false }

/-- C3 counterexample: one candidate with no Exif timestamp.  Phase 2's
candidate list is non-empty, so the run prints "Done." although not a
single file was renamed — refuting "'Done' iff at least one still image
was actually renamed". -/
theorem c3_done_without_rename_counterexample :
    (phase2 c3World "d").log.head? = some "Done." ∧
    (phase2 c3World "d").renameLog = [] := by
  constructor
  · rfl
  · rfl

/-- C3 amended: the terminal line is "Done" iff the Phase-2 candidate list
(the directory's accepted-extension files that survive `filter_by_name`)
is non-empty and the loop was not aborted by an access-error crash; when
the candidate list is empty the line is "No file was further renamed."
Whether any rename actually happened does not enter the condition. -/
theorem c3_done_iff_candidates_nonempty (w : World) (img_dir : String)
    (h0 : w.crashed = false) :
    ((phase2 w img_dir).log.head? = some "Done." ↔
      (filter_by_name (select_by_exts w img_dir img_exts).1 f_heads ≠ [] ∧
       (phase2 w img_dir).crashed = false)) ∧
    (filter_by_name (select_by_exts w img_dir img_exts).1 f_heads = [] →
      (phase2 w img_dir).log.head? = some "No file was further renamed.") := by
  have hunfold : phase2 w img_dir =
      (if filter_by_name (select_by_exts w img_dir img_exts).1 f_heads ≠ [] then
        (if (phase2_loop (select_by_exts w img_dir img_exts).2
              (filter_by_name (select_by_exts w img_dir img_exts).1 f_heads)).crashed
         then phase2_loop (select_by_exts w img_dir img_exts).2
                (filter_by_name (select_by_exts w img_dir img_exts).1 f_heads)
         else print (phase2_loop (select_by_exts w img_dir img_exts).2
                (filter_by_name (select_by_exts w img_dir img_exts).1 f_heads)) "Done.")
       else print (select_by_exts w img_dir img_exts).2 "No file was further renamed.") := by
    show (if w.crashed then w else _) = _
    rw [if_neg (by simp [h0])]
  by_cases hps : filter_by_name (select_by_exts w img_dir img_exts).1 f_heads = []
  · rw [hunfold, if_neg (by simpa using hps)]
    refine ⟨?_, fun _ => rfl⟩
    constructor
    · intro h
      have : ("No file was further renamed." : String) = "Done." := by
        injection h
      exact absurd this (by decide)
    · rintro ⟨h1, _⟩
      exact absurd hps h1
  · rw [hunfold, if_pos (by simpa using hps)]
    have hsc : (select_by_exts w img_dir img_exts).2.crashed = false := by
      rw [select_by_exts_crashed]
      exact h0
    rcases phase2_loop_cases
        (filter_by_name (select_by_exts w img_dir img_exts).1 f_heads)
        (select_by_exts w img_dir img_exts).2 hsc with h1 | ⟨h1, p, h2⟩
    · rw [if_neg (by simp [h1])]
      refine ⟨?_, fun he => absurd he hps⟩
      constructor
      · intro _
        exact ⟨hps, h1⟩
      · intro _
        rfl
    · rw [if_pos (by simp [h1])]
      refine ⟨?_, fun he => absurd he hps⟩
      constructor
      · intro h
        rw [h2] at h
        have : ("Error: cannot access the image '" ++ p ++ "'.\n") = "Done." := by
          injection h
        exact absurd this (err_ne_done p)
      · rintro ⟨_, hcr⟩
        rw [h1] at hcr
        exact absurd hcr (by decide)

theorem c3_witness :
    ((phase2 c3World "d").log.head? = some "Done." ↔
      (filter_by_name (select_by_exts c3World "d" img_exts).1 f_heads ≠ [] ∧
       (phase2 c3World "d").crashed = false)) ∧
    (filter_by_name (select_by_exts c3World "d" img_exts).1 f_heads = [] →
      (phase2 c3World "d").log.head? = some "No file was further renamed.") :=
  c3_done_iff_candidates_nonempty c3World "d" (by decide)

/-! ## Helper lemmas: names the resolver writes are filtered out later -/

theorem digit_ne_dot_slash {c : Char} (h : '0' ≤ c ∧ c ≤ '9') :
    ¬ c = '.' ∧ ¬ c = '/' := by
  constructor <;> rintro rfl <;> revert h <;> decide

/-- Any name of the shape `IMG_` ++ timestamp ++ suffix ++ ext, joined to a
folder, is excluded by `filter_by_name` for a prefix set containing
`IMG_`, provided the timestamp satisfies the classifier, the suffix is
dot- and slash-free, and the extension has `pySplitext` output shape. -/
theorem built_name_excluded (folder dt : String) (sfx ed : List Char)
    (heads paths : List String)
    (hdt : is_date_time dt = true)
    (hsfx : ∀ c ∈ sfx, ¬ c = '.' ∧ ¬ c = '/')
    (hext : ed = [] ∨ ∃ s, ed = '.' :: s ∧ '.' ∉ s ∧ '/' ∉ s)
    (hin : "IMG_" ∈ heads) :
    pyJoin folder ⟨"IMG_".data ++ dt.data ++ sfx ++ ed⟩ ∉
      filter_by_name paths heads := by
  obtain ⟨hlen, hdot, hslash, htake⟩ := is_date_time_props hdt
  have hBslash : '/' ∉ "IMG_".data ++ dt.data ++ sfx := by
    intro hc
    rcases List.mem_append.mp hc with hc | hc
    · rcases List.mem_append.mp hc with hc | hc
      · revert hc; decide
      · exact hslash hc
    · exact (hsfx _ hc).2 rfl
  have hBdot : '.' ∉ "IMG_".data ++ dt.data ++ sfx := by
    intro hc
    rcases List.mem_append.mp hc with hc | hc
    · rcases List.mem_append.mp hc with hc | hc
      · revert hc; decide
      · exact hdot hc
    · exact (hsfx _ hc).1 rfl
  have hnslash : '/' ∉ ("IMG_".data ++ dt.data ++ sfx) ++ ed := by
    intro hc
    rcases List.mem_append.mp hc with hc | hc
    · exact hBslash hc
    · rcases hext with rfl | ⟨s, rfl, _, hsl⟩
      · exact absurd hc (List.not_mem_nil '/')
      · rcases List.mem_cons.mp hc with hc | hc
        · revert hc; decide
        · exact hsl hc
  have hhead : (("IMG_".data ++ dt.data ++ sfx) ++ ed).head? = some 'I' := rfl
  have htail : (pySplit (pyJoin folder ⟨"IMG_".data ++ dt.data ++ sfx ++ ed⟩)).2 =
      ⟨("IMG_".data ++ dt.data ++ sfx) ++ ed⟩ :=
    pySplit_snd_join folder _ (by rw [sdata_mk, hhead]; decide) (by rw [sdata_mk]; exact hnslash)
  have hfbase : (pySplitext
      (⟨("IMG_".data ++ dt.data ++ sfx) ++ ed⟩ : String)).1 =
      ⟨"IMG_".data ++ dt.data ++ sfx⟩ := by
    rcases hext with rfl | ⟨s, rfl, hsd, hss⟩
    · rw [List.append_nil]
      rw [pySplitext_no_dot hBdot]
    · rw [pySplitext_built hsd hss ?_]
      rw [splitTail_no_slash hBslash]
      exact ⟨'I', by simp, by decide⟩
  have hdrop : ("IMG_".data ++ dt.data ++ sfx).drop 4 = dt.data ++ sfx := by
    rw [List.append_assoc]
    rw [show (4 : Nat) = ("IMG_".data).length from rfl]
    exact List.drop_left _ _
  have hslice : pySlice ⟨"IMG_".data ++ dt.data ++ sfx⟩ ("IMG_" : String).length 15 =
      ⟨(dt.data ++ sfx).take 15⟩ := by
    unfold pySlice
    rw [sdata_mk]
    rw [show ("IMG_" : String).length = 4 from rfl, hdrop]
  have hexcl : excludedLoop ⟨"IMG_".data ++ dt.data ++ sfx⟩ heads = true := by
    rw [excludedLoop_eq_any, List.any_eq_true]
    refine ⟨"IMG_", hin, ?_⟩
    rw [Bool.and_eq_true]
    constructor
    · show ("IMG_".data).isPrefixOf ("IMG_".data ++ dt.data ++ sfx) = true
      rw [List.isPrefixOf_iff_prefix, List.append_assoc]
      exact List.prefix_append _ _
    · rw [hslice]
      exact htake sfx
  intro hmem
  have := (mem_filter_by_name.mp hmem).2
  rw [htail, hfbase, hexcl] at this
  exact absurd this (by decide)

def c6World : World :=
  { files := ["d/a.jpg"], exif := fun _ => some "1969:01:01 00:00:00",
    openFails := fun _ => false, renameFails := fun _ _ => false,
    listdirFails := fun _ => false, log := [], renameLog := [], crashed := false }

/-- C6 counterexample: a capture timestamp with year 1969 formats to
`19690101_000000`, which the classifier rejects (years start at 1970).
The first run renames `d/a.jpg` to `d/IMG_19690101_000000.jpg`; the
second run selects that file again (the filter does not exclude it),
finds its own name occupied and renames it once more, to
`...-1.jpg` — the second run performs a rename action, refuting
idempotence as claimed. -/
theorem c6_second_run_renames_counterexample :
    (full_run c6World "d").renameLog.length = 1 ∧
    (full_run (full_run c6World "d") "d").renameLog.length = 2 := by
  constructor
  · rfl
  · rfl

/-- C6 amended: every file `rn_by_exif` successfully renames with prefix
`IMG_` — including names carrying a `-N` collision suffix — whose
formatted timestamp satisfies the classifier is excluded by
`filter_by_name` for any prefix set containing `IMG_` (so such files are
not candidates on a second pass).  The classifier hypothesis is what the
counterexample shows to be necessary; rename failures and the access-error
crash (C2) are the other ways a second run can differ. -/
theorem c6_renamed_file_excluded_from_filter (w : World)
    (path raw np : String) (heads paths : List String)
    (hex : w.exif path = some raw)
    (hdt : is_date_time (fmtExif raw) = true)
    (hok : (rn_by_exif w path "IMG_").1 = RnResult.ok np)
    (hin : "IMG_" ∈ heads) :
    np ∉ filter_by_name paths heads := by
  by_cases hc : path ∈ w.files ∧ w.openFails path = false
  case neg =>
    rw [rn_by_exif_raised hc] at hok
    exact absurd hok (by simp)
  by_cases hcond : path ∈ w.files ∧
      find_loop w.files (pySplit path).1 "IMG_" (fmtExif raw)
        (pySplitext (pySplit path).2).2 (w.files.length + 1) 0 ∉ w.files ∧
      w.renameFails path (find_loop w.files (pySplit path).1 "IMG_" (fmtExif raw)
        (pySplitext (pySplit path).2).2 (w.files.length + 1) 0) = false
  case neg =>
    rw [rn_by_exif_rename_fails hc.1 hc.2 hex rfl hcond] at hok
    exact absurd hok (by simp)
  rw [rn_by_exif_ok hc.1 hc.2 hex rfl hcond.2.1 hcond.2.2] at hok
  have h2 : RnResult.ok (find_loop w.files (pySplit path).1 "IMG_" (fmtExif raw)
      (pySplitext (pySplit path).2).2 (w.files.length + 1) 0) = RnResult.ok np := hok
  injection h2 with h3
  obtain ⟨k, _, hk⟩ := find_loop_shape w.files (pySplit path).1 "IMG_" (fmtExif raw)
    (pySplitext (pySplit path).2).2 (w.files.length + 1) 0
  rw [← h3, hk]
  obtain ⟨_, hshape⟩ := pySplitext_shape (pySplit path).2
  match k with
  | 0 =>
      have heq : candName "IMG_" (fmtExif raw) (pySplitext (pySplit path).2).2 0 =
          ⟨"IMG_".data ++ (fmtExif raw).data ++ ([] : List Char) ++
            (pySplitext (pySplit path).2).2.data⟩ := by
        apply seq_of_data
        rw [candName_data_zero, sdata_mk, List.append_nil]
      rw [heq]
      exact built_name_excluded _ _ [] _ heads paths hdt (by simp) hshape hin
  | k + 1 =>
      have heq : candName "IMG_" (fmtExif raw) (pySplitext (pySplit path).2).2 (k + 1) =
          ⟨"IMG_".data ++ (fmtExif raw).data ++ ('-' :: natToDec (k + 1)) ++
            (pySplitext (pySplit path).2).2.data⟩ := by
        apply seq_of_data
        rw [candName_data_succ, sdata_mk]
        simp [List.append_assoc]
      rw [heq]
      refine built_name_excluded _ _ ('-' :: natToDec (k + 1)) _ heads paths hdt ?_ hshape hin
      intro c hc2
      rcases List.mem_cons.mp hc2 with rfl | hc2
      · exact ⟨by decide, by decide⟩
      · exact digit_ne_dot_slash (natToDec_digits c hc2)

def c6WitnessWorld : World :=
  { files := ["d/a.jpg"], exif := fun _ => some "2023:04:06 17:50:47",
    openFails := fun _ => false, renameFails := fun _ _ => false,
    listdirFails := fun _ => false, log := [], renameLog := [], crashed := false }

theorem c6_witness :
    "d/IMG_20230406_175047.jpg" ∉
      filter_by_name ["d/IMG_20230406_175047.jpg"] f_heads :=
  c6_renamed_file_excluded_from_filter c6WitnessWorld "d/a.jpg"
    "2023:04:06 17:50:47" "d/IMG_20230406_175047.jpg" f_heads
    ["d/IMG_20230406_175047.jpg"] (by decide) (by decide) (by decide) (by decide)

def c8World : World :=
  { files := ["d/x.JPG", "d/x.jpg", "d/x.MOV"],
    exif := fun _ => some "2023:04:06 17:50:47",
    openFails := fun _ => false,
    renameFails := fun o _ => o = "d/x.JPG",
    listdirFails := fun _ => false, log := [], renameLog := [], crashed := false }

/-- C8 counterexample: the clip `d/x.MOV` base-matches both `d/x.JPG` and
`d/x.jpg`.  The pair with `d/x.JPG` is processed first and its image
rename fails (the file is still there after Phase 1), yet the clip is not
left unchanged: the later pair with `d/x.jpg` succeeds and renames the
clip.  So "if the image rename failed, the clip is left unchanged by
Phase 1" does not hold per pair. -/
theorem c8_clip_renamed_despite_failed_pair_counterexample :
    pyDropRight "d/x.MOV" (".MOV" : String).length =
      pyDropRight "d/x.JPG" (".JPG" : String).length ∧
    "d/x.JPG" ∈ (rn_lphotos c8World "d" ".JPG" ".MOV" ["IMG_"]).files ∧
    "d/x.MOV" ∉ (rn_lphotos c8World "d" ".JPG" ".MOV" ["IMG_"]).files ∧
    "d/IMG_20230406_175047.MOV" ∈ (rn_lphotos c8World "d" ".JPG" ".MOV" ["IMG_"]).files := by
  refine ⟨by decide, by decide, by decide, by decide⟩

/-- C8 amended: within one matched-pair iteration the order is as claimed —
the image is renamed first and `rn_mov` runs only when `rn_by_exif`
returned a new path; when the image rename returns `None` that iteration
changes neither the file set nor the rename log, and when it raises no
clip rename is attempted either.  (A clip matching several images can
still be renamed by a later pair, which is what the counterexample
exhibits.) -/
theorem c8_pair_step_order (w : World) (lmov_path limg_path : String) :
    (∀ np, (rn_by_exif (print w ("Renaming live photo files: " ++ limg_path ++
        " and " ++ lmov_path)) limg_path "IMG_").1 = RnResult.ok np →
      pair_step w lmov_path limg_path =
        (rn_mov (rn_by_exif (print w ("Renaming live photo files: " ++ limg_path ++
          " and " ++ lmov_path)) limg_path "IMG_").2 lmov_path np).2) ∧
    ((rn_by_exif (print w ("Renaming live photo files: " ++ limg_path ++
        " and " ++ lmov_path)) limg_path "IMG_").1 = RnResult.none →
      (pair_step w lmov_path limg_path).files = w.files ∧
      (pair_step w lmov_path limg_path).renameLog = w.renameLog) ∧
    ((rn_by_exif (print w ("Renaming live photo files: " ++ limg_path ++
        " and " ++ lmov_path)) limg_path "IMG_").1 = RnResult.raised →
      pair_step w lmov_path limg_path =
        (rn_by_exif (print w ("Renaming live photo files: " ++ limg_path ++
          " and " ++ lmov_path)) limg_path "IMG_").2) := by
  have hstep : pair_step w lmov_path limg_path =
      (match (rn_by_exif (print w ("Renaming live photo files: " ++ limg_path ++
          " and " ++ lmov_path)) limg_path "IMG_").1 with
       | RnResult.ok new_jpg =>
           (rn_mov (rn_by_exif (print w ("Renaming live photo files: " ++ limg_path ++
             " and " ++ lmov_path)) limg_path "IMG_").2 lmov_path new_jpg).2
       | _ =>
           (rn_by_exif (print w ("Renaming live photo files: " ++ limg_path ++
             " and " ++ lmov_path)) limg_path "IMG_").2) := rfl
  refine ⟨?_, ?_, ?_⟩
  · intro np h
    rw [hstep, h]
  · intro h
    have hps : pair_step w lmov_path limg_path =
        (rn_by_exif (print w ("Renaming live photo files: " ++ limg_path ++
          " and " ++ lmov_path)) limg_path "IMG_").2 := by
      rw [hstep, h]
    obtain ⟨h1, h2, _⟩ := rn_by_exif_frame_none h
    rw [hps, h1, h2]
    exact ⟨rfl, rfl⟩
  · intro h
    rw [hstep, h]

/-! ## Helper lemmas: the collision batch -/

/-- The induction behind C4: with candidates `i, i+1, ...` still free and
all smaller candidates already created, processing the remaining sources
assigns them the candidate names in order. -/
theorem rn_many_batch_aux (head dt folder ext : String)
    (hne : (head ++ dt).data ≠ []) :
    ∀ (srcs : List String) (w : World) (i : Nat),
    w.files.Nodup → srcs.Nodup →
    (∀ s ∈ srcs, s ∈ w.files) →
    (∀ s ∈ srcs, w.openFails s = false) →
    (∀ s ∈ srcs, ∃ raw, w.exif s = some raw ∧ fmtExif raw = dt) →
    (∀ s ∈ srcs, (pySplit s).1 = folder) →
    (∀ s ∈ srcs, (pySplitext (pySplit s).2).2 = ext) →
    (∀ o n, w.renameFails o n = false) →
    (∀ s' ∈ srcs, ∀ j : Nat, j < i + srcs.length →
      s' ≠ pyJoin folder (candName head dt ext j)) →
    (∀ j, j < i → pyJoin folder (candName head dt ext j) ∈ w.files) →
    (∀ j, i ≤ j → j < i + srcs.length →
      pyJoin folder (candName head dt ext j) ∉ w.files) →
    i + srcs.length ≤ w.files.length →
    (rn_many w head srcs).1 =
      (List.range' i srcs.length).map
        (fun k => RnResult.ok (pyJoin folder (candName head dt ext k))) := by
  intro srcs
  induction srcs with
  | nil => intro w i _ _ _ _ _ _ _ _ _ _ _ _; rfl
  | cons s rest ih =>
      intro w i hwnd hnodups hsub hop hexif hfolder hext hrn hsrcand hmem hnot hlen
      obtain ⟨raw, hraw, hfmt⟩ := hexif s (by simp)
      have hsmem : s ∈ w.files := hsub s (by simp)
      have hsop : w.openFails s = false := hop s (by simp)
      have hsfolder : (pySplit s).1 = folder := hfolder s (by simp)
      have hsext : (pySplitext (pySplit s).2).2 = ext := hext s (by simp)
      obtain ⟨hsrest, hrestnd⟩ := List.nodup_cons.mp hnodups
      have hlen' : i + rest.length + 1 ≤ w.files.length := by
        simp only [List.length_cons] at hlen
        omega
      have hfree : pyJoin folder (candName head dt ext i) ∉ w.files :=
        hnot i (Nat.le_refl i) (by simp only [List.length_cons]; omega)
      have hfl : find_loop w.files (pySplit s).1 head (fmtExif raw)
          (pySplitext (pySplit s).2).2 (w.files.length + 1) 0 =
          pyJoin folder (candName head dt ext i) := by
        rw [hsfolder, hsext, hfmt]
        have := find_loop_least w.files folder head dt ext i (w.files.length + 1) 0
          (by omega)
          (fun l hl => by simpa using hmem l hl)
          (by simpa using hfree)
        simpa using this
      have hok := rn_by_exif_ok hsmem hsop hraw hfl.symm hfree (hrn s _)
      have hstep : (rn_many w head (s :: rest)).1 =
          (rn_by_exif w s head).1 :: (rn_many (rn_by_exif w s head).2 head rest).1 := rfl
      rw [hstep, hok]
      simp only [List.length_cons]
      rw [List.range'_succ, List.map_cons]
      show RnResult.ok (pyJoin folder (candName head dt ext i)) :: _ = _
      congr 1
      have hW'len : (pyJoin folder (candName head dt ext i) ::
          w.files.erase s).length = w.files.length := by
        rw [List.length_cons, List.length_erase_of_mem hsmem]
        have := List.length_pos_of_mem hsmem
        omega
      apply ih _ (i + 1)
      · rw [List.nodup_cons]
        exact ⟨fun hc => hfree (List.mem_of_mem_erase hc), hwnd.erase s⟩
      · exact hrestnd
      · intro s' hs'
        have hne_s : s' ≠ s := fun he => hsrest (he ▸ hs')
        exact List.mem_cons_of_mem _
          ((List.mem_erase_of_ne hne_s).mpr (hsub s' (List.mem_cons_of_mem s hs')))
      · exact fun s' hs' => hop s' (List.mem_cons_of_mem s hs')
      · exact fun s' hs' => hexif s' (List.mem_cons_of_mem s hs')
      · exact fun s' hs' => hfolder s' (List.mem_cons_of_mem s hs')
      · exact fun s' hs' => hext s' (List.mem_cons_of_mem s hs')
      · exact hrn
      · intro s' hs' j hj
        exact hsrcand s' (List.mem_cons_of_mem s hs') j
          (by simp only [List.length_cons]; omega)
      · intro j hj
        rcases Nat.lt_succ_iff_lt_or_eq.mp hj with hj2 | hj2
        · have hjmem := hmem j hj2
          have hj_ne_s : pyJoin folder (candName head dt ext j) ≠ s := by
            intro he
            exact hsrcand s (by simp) j (by simp only [List.length_cons]; omega) he.symm
          exact List.mem_cons_of_mem _ ((List.mem_erase_of_ne hj_ne_s).mpr hjmem)
        · subst hj2
          exact List.mem_cons_self _ _
      · intro j hj1 hj2 hcmem
        rcases List.mem_cons.mp hcmem with hc | hc
        · have := candPath_inj folder head dt ext hne j i hc
          omega
        · exact hnot j (by omega) (by simp only [List.length_cons]; omega)
            (List.mem_of_mem_erase hc)
      · rw [hW'len]
        omega

/-- C4 (confirmed): when N files in the same directory all derive the same
candidate base name `head ++ T` (same folder, same formatted timestamp,
same extension), none of those candidate target names exists beforehand,
metadata reads and renames succeed, then successive `rn_by_exif` calls
assign to the i-th processed file exactly the i-th candidate name — the
plain name first, then `-1`, `-2`, … — so the assigned names are exactly
the claimed set with no gaps, and (second conjunct) they are pairwise
distinct.  The theorem holds for every processing order (any permutation
of the sources satisfies the same hypotheses), so order only determines
which file receives which suffix.  Existence is re-checked against the
current file set on every loop iteration (`find_loop`). -/
theorem c4_collision_suffixes_exact (w : World) (head dt folder ext : String)
    (srcs : List String)
    (hwnd : w.files.Nodup) (hnodups : srcs.Nodup) (hdtne : dt ≠ "")
    (hsub : ∀ s ∈ srcs, s ∈ w.files)
    (hop : ∀ s ∈ srcs, w.openFails s = false)
    (hexif : ∀ s ∈ srcs, ∃ raw, w.exif s = some raw ∧ fmtExif raw = dt)
    (hfolder : ∀ s ∈ srcs, (pySplit s).1 = folder)
    (hext : ∀ s ∈ srcs, (pySplitext (pySplit s).2).2 = ext)
    (hrn : ∀ o n, w.renameFails o n = false)
    (hcands : ∀ k, k < srcs.length →
      pyJoin folder (candName head dt ext k) ∉ w.files) :
    (rn_many w head srcs).1 =
      (List.range srcs.length).map
        (fun i => RnResult.ok (pyJoin folder (candName head dt ext i))) ∧
    ∀ i j : Nat, i ≠ j →
      pyJoin folder (candName head dt ext i) ≠ pyJoin folder (candName head dt ext j) := by
  have hne : (head ++ dt).data ≠ [] := by
    rw [sdata_append]
    intro hcontr
    apply hdtne
    apply seq_of_data
    rw [(List.append_eq_nil.mp hcontr).2]
  constructor
  · rw [List.range_eq_range']
    have hcount : srcs.length ≤ w.files.length := by
      classical
      have h1 : srcs.toFinset.card = srcs.length := List.toFinset_card_of_nodup hnodups
      have h2 : srcs.toFinset ⊆ w.files.toFinset := by
        intro x hx
        rw [List.mem_toFinset] at hx ⊢
        exact hsub x hx
      calc srcs.length = srcs.toFinset.card := h1.symm
        _ ≤ w.files.toFinset.card := Finset.card_le_card h2
        _ ≤ w.files.length := List.toFinset_card_le _
    apply rn_many_batch_aux head dt folder ext hne srcs w 0 hwnd hnodups hsub hop
      hexif hfolder hext hrn
    · intro s' hs' j hj he
      exact hcands j (by omega) (he ▸ hsub s' hs')
    · intro j hj
      omega
    · intro j _ hj
      exact hcands j (by omega)
    · omega
  · intro i j hij heq
    exact hij (candPath_inj folder head dt ext hne i j heq)

def c4World : World :=
  { files := ["d/a.jpg", "d/b.jpg", "d/c.jpg"],
    exif := fun _ => some "2023:04:06 17:50:47",
    openFails := fun _ => false, renameFails := fun _ _ => false,
    listdirFails := fun _ => false, log := [], renameLog := [], crashed := false }

theorem c4_witness :
    (rn_many c4World "IMG_" ["d/a.jpg", "d/b.jpg", "d/c.jpg"]).1 =
      (List.range (["d/a.jpg", "d/b.jpg", "d/c.jpg"] : List String).length).map
        (fun i => RnResult.ok (pyJoin "d" (candName "IMG_" "20230406_175047" ".jpg" i))) ∧
    ∀ i j : Nat, i ≠ j →
      pyJoin "d" (candName "IMG_" "20230406_175047" ".jpg" i) ≠
        pyJoin "d" (candName "IMG_" "20230406_175047" ".jpg" j) :=
  c4_collision_suffixes_exact c4World "IMG_" "20230406_175047" "d" ".jpg"
    ["d/a.jpg", "d/b.jpg", "d/c.jpg"]
    (by decide) (by decide) (by decide) (by decide) (by decide)
    (fun _ _ => ⟨"2023:04:06 17:50:47", rfl, by decide⟩)
    (by decide) (by decide) (fun _ _ => rfl) (by decide)

/-! ## Helper lemmas: a file neither renamed from nor renamed onto -/

/-- `w'` is reachable from `w` without touching `c`: if `c` existed before,
it still exists, and every new rename-log entry avoids `c` on both sides. -/
def StepSafe (c : String) (w w' : World) : Prop :=
  c ∈ w.files → (c ∈ w'.files ∧
    ∀ e ∈ w'.renameLog, e ∈ w.renameLog ∨ (e.1 ≠ c ∧ e.2 ≠ c))

theorem stepSafe_rfl (c : String) (w : World) : StepSafe c w w :=
  fun h => ⟨h, fun _e he => Or.inl he⟩

theorem stepSafe_trans {c : String} {w1 w2 w3 : World}
    (h1 : StepSafe c w1 w2) (h2 : StepSafe c w2 w3) : StepSafe c w1 w3 := by
  intro hc
  obtain ⟨hc2, hlog2⟩ := h1 hc
  obtain ⟨hc3, hlog3⟩ := h2 hc2
  refine ⟨hc3, fun e he => ?_⟩
  rcases hlog3 e he with h | h
  · exact hlog2 e h
  · exact Or.inr h

theorem stepSafe_frame {c : String} {w w' : World}
    (hf : w'.files = w.files) (hl : w'.renameLog = w.renameLog) :
    StepSafe c w w' :=
  fun hc => ⟨hf ▸ hc, fun _e he => Or.inl (hl ▸ he)⟩

theorem stepSafe_os_rename {c : String} {w : World} {old new : String}
    (hold : old ≠ c) : StepSafe c w (os_rename w old new).2 := by
  by_cases hcond : old ∈ w.files ∧ new ∉ w.files ∧ w.renameFails old new = false
  · rw [os_rename_pos hcond]
    intro hc
    refine ⟨List.mem_cons_of_mem _
      ((List.mem_erase_of_ne (fun he => hold he.symm)).mpr hc), ?_⟩
    intro e he
    rcases List.mem_cons.mp he with rfl | h
    · refine Or.inr ⟨hold, ?_⟩
      intro h2
      have h2' : new = c := h2
      exact hcond.2.1 (by rw [h2']; exact hc)
    · exact Or.inl h
  · rw [os_rename_neg hcond]
    exact stepSafe_rfl c w

theorem stepSafe_rn_by_exif {c : String} {w : World} {path head : String}
    (hpath : path ≠ c) : StepSafe c w (rn_by_exif w path head).2 := by
  by_cases hc : path ∈ w.files ∧ w.openFails path = false
  · cases hex : w.exif path with
    | none =>
        rw [rn_by_exif_no_exif hc.1 hc.2 hex]
        exact stepSafe_frame rfl rfl
    | some raw =>
        by_cases hcond : path ∈ w.files ∧
            find_loop w.files (pySplit path).1 head (fmtExif raw)
              (pySplitext (pySplit path).2).2 (w.files.length + 1) 0 ∉ w.files ∧
            w.renameFails path (find_loop w.files (pySplit path).1 head (fmtExif raw)
              (pySplitext (pySplit path).2).2 (w.files.length + 1) 0) = false
        · rw [rn_by_exif_ok hc.1 hc.2 hex rfl hcond.2.1 hcond.2.2]
          intro hcmem
          refine ⟨List.mem_cons_of_mem _
            ((List.mem_erase_of_ne (fun he => hpath he.symm)).mpr hcmem), ?_⟩
          intro e he
          rcases List.mem_cons.mp he with rfl | h
          · refine Or.inr ⟨hpath, ?_⟩
            intro h2
            have h2' : find_loop w.files (pySplit path).1 head (fmtExif raw)
                (pySplitext (pySplit path).2).2 (w.files.length + 1) 0 = c := h2
            exact hcond.2.1 (by rw [h2']; exact hcmem)
          · exact Or.inl h
        · rw [rn_by_exif_rename_fails hc.1 hc.2 hex rfl hcond]
          exact stepSafe_frame rfl rfl
  · rw [rn_by_exif_raised hc]
    exact stepSafe_frame rfl rfl

theorem stepSafe_rn_mov {c : String} {w : World} {lmov_path limg_path : String}
    (hlmov : lmov_path ≠ c) : StepSafe c w (rn_mov w lmov_path limg_path).2 := by
  by_cases hcond : lmov_path ∈ w.files ∧
      (pySplitext limg_path).1 ++ (pySplitext lmov_path).2 ∉ w.files ∧
      w.renameFails lmov_path
        ((pySplitext limg_path).1 ++ (pySplitext lmov_path).2) = false
  · rw [rn_mov_pos hcond]
    intro hc
    refine ⟨List.mem_cons_of_mem _
      ((List.mem_erase_of_ne (fun he => hlmov he.symm)).mpr hc), ?_⟩
    intro e he
    rcases List.mem_cons.mp he with rfl | h
    · refine Or.inr ⟨hlmov, ?_⟩
      intro h2
      have h2' : (pySplitext limg_path).1 ++ (pySplitext lmov_path).2 = c := h2
      exact hcond.2.1 (by rw [h2']; exact hc)
    · exact Or.inl h
  · rw [rn_mov_neg hcond]
    exact stepSafe_frame rfl rfl

theorem stepSafe_pair_step {c : String} {w : World} {lmov_path limg_path : String}
    (hlmov : lmov_path ≠ c) (hlimg : limg_path ≠ c) :
    StepSafe c w (pair_step w lmov_path limg_path) := by
  have hstep : pair_step w lmov_path limg_path =
      (match (rn_by_exif (print w ("Renaming live photo files: " ++ limg_path ++
          " and " ++ lmov_path)) limg_path "IMG_").1 with
       | RnResult.ok new_jpg =>
           (rn_mov (rn_by_exif (print w ("Renaming live photo files: " ++ limg_path ++
             " and " ++ lmov_path)) limg_path "IMG_").2 lmov_path new_jpg).2
       | _ =>
           (rn_by_exif (print w ("Renaming live photo files: " ++ limg_path ++
             " and " ++ lmov_path)) limg_path "IMG_").2) := rfl
  have hs0 : StepSafe c w (print w ("Renaming live photo files: " ++ limg_path ++
      " and " ++ lmov_path)) := stepSafe_frame rfl rfl
  have hs1 : StepSafe c w (rn_by_exif (print w ("Renaming live photo files: " ++
      limg_path ++ " and " ++ lmov_path)) limg_path "IMG_").2 :=
    stepSafe_trans hs0 (stepSafe_rn_by_exif hlimg)
  rw [hstep]
  cases (rn_by_exif (print w ("Renaming live photo files: " ++ limg_path ++
      " and " ++ lmov_path)) limg_path "IMG_").1 with
  | ok np => exact stepSafe_trans hs1 (stepSafe_rn_mov hlmov)
  | none => exact hs1
  | raised => exact hs1

theorem pairs_inner_eq (w : World) (lmov_path lmov_base : String) (len : Nat)
    (limg_path : String) (rest : List String) :
    pairs_inner w lmov_path lmov_base len (limg_path :: rest) =
      (if w.crashed then w
       else if lmov_base = pyDropRight limg_path len then
         pairs_inner (pair_step w lmov_path limg_path) lmov_path lmov_base len rest
       else pairs_inner w lmov_path lmov_base len rest) := rfl

theorem stepSafe_pairs_inner {c : String} (lmov_path lmov_base : String) (len : Nat)
    (hlmov : lmov_path ≠ c) :
    ∀ (limgs : List String) (w : World), (∀ limg ∈ limgs, limg ≠ c) →
    StepSafe c w (pairs_inner w lmov_path lmov_base len limgs) := by
  intro limgs
  induction limgs with
  | nil => exact fun w _ => stepSafe_rfl c w
  | cons limg rest ih =>
      intro w hl
      rw [pairs_inner_eq]
      by_cases hcr : w.crashed
      · rw [if_pos hcr]
        exact stepSafe_rfl c w
      · rw [if_neg hcr]
        by_cases hb : lmov_base = pyDropRight limg len
        · rw [if_pos hb]
          exact stepSafe_trans
            (stepSafe_pair_step hlmov (hl limg (by simp)))
            (ih _ (fun x hx => hl x (List.mem_cons_of_mem _ hx)))
        · rw [if_neg hb]
          exact ih w (fun x hx => hl x (List.mem_cons_of_mem _ hx))

theorem pairs_inner_no_match (lmov_path lmov_base : String) (len : Nat) :
    ∀ (limgs : List String) (w : World),
    (∀ limg ∈ limgs, lmov_base ≠ pyDropRight limg len) →
    pairs_inner w lmov_path lmov_base len limgs = w := by
  intro limgs
  induction limgs with
  | nil => exact fun w _ => rfl
  | cons limg rest ih =>
      intro w hno
      rw [pairs_inner_eq]
      by_cases hcr : w.crashed
      · rw [if_pos hcr]
      · rw [if_neg hcr, if_neg (hno limg (by simp))]
        exact ih w (fun x hx => hno x (List.mem_cons_of_mem _ hx))

theorem pairs_outer_eq (w : World) (limg_paths : List String) (len_limg len_lmov : Nat)
    (lmov_path : String) (rest : List String) :
    pairs_outer w limg_paths len_limg len_lmov (lmov_path :: rest) =
      (if w.crashed then w
       else pairs_outer (pairs_inner w lmov_path (pyDropRight lmov_path len_lmov)
         len_limg limg_paths) limg_paths len_limg len_lmov rest) := rfl

theorem stepSafe_pairs_outer {c : String} (limg_paths : List String)
    (len_limg len_lmov : Nat)
    (hlimgs : ∀ limg ∈ limg_paths, limg ≠ c)
    (hbase : ∀ limg ∈ limg_paths,
      pyDropRight c len_lmov ≠ pyDropRight limg len_limg) :
    ∀ (lmovs : List String) (w : World),
    StepSafe c w (pairs_outer w limg_paths len_limg len_lmov lmovs) := by
  intro lmovs
  induction lmovs with
  | nil => exact fun w => stepSafe_rfl c w
  | cons lmov rest ih =>
      intro w
      rw [pairs_outer_eq]
      by_cases hcr : w.crashed
      · rw [if_pos hcr]
        exact stepSafe_rfl c w
      · rw [if_neg hcr]
        by_cases hlm : lmov = c
        · subst hlm
          rw [pairs_inner_no_match lmov (pyDropRight lmov len_lmov) len_limg
            limg_paths w hbase]
          exact ih w
        · exact stepSafe_trans (stepSafe_pairs_inner lmov _ len_limg hlm limg_paths w hlimgs)
            (ih _)

theorem phase2_loop_eq (w : World) (img_path : String) (rest : List String) :
    phase2_loop w (img_path :: rest) =
      (if w.crashed then w
       else phase2_loop (rn_by_exif (print w ("Renaming: " ++ img_path))
         img_path "IMG_").2 rest) := rfl

theorem stepSafe_phase2_loop {c : String} :
    ∀ (ps : List String) (w : World), (∀ p ∈ ps, p ≠ c) →
    StepSafe c w (phase2_loop w ps) := by
  intro ps
  induction ps with
  | nil => exact fun w _ => stepSafe_rfl c w
  | cons p rest ih =>
      intro w hp
      rw [phase2_loop_eq]
      by_cases hcr : w.crashed
      · rw [if_pos hcr]
        exact stepSafe_rfl c w
      · rw [if_neg hcr]
        have hs0 : StepSafe c w (print w ("Renaming: " ++ p)) := stepSafe_frame rfl rfl
        exact stepSafe_trans
          (stepSafe_trans hs0 (stepSafe_rn_by_exif (hp p (by simp))))
          (ih _ (fun x hx => hp x (List.mem_cons_of_mem _ hx)))

/-! ## Helper lemmas: what the selector's outputs look like -/

theorem nameInDir_spec {dir p nm : String} (h : nameInDir dir p = some nm) :
    p.data = dir.data ++ '/' :: nm.data ∧ nm.data ≠ [] ∧ '/' ∉ nm.data := by
  have h2 : (if (p.data.take (dir.data.length + 1) = dir.data ++ ['/'] ∧
      p.data.drop (dir.data.length + 1) ≠ [] ∧
      '/' ∉ p.data.drop (dir.data.length + 1))
      then some (⟨p.data.drop (dir.data.length + 1)⟩ : String)
      else Option.none) = some nm := h
  by_cases hc : p.data.take (dir.data.length + 1) = dir.data ++ ['/'] ∧
      p.data.drop (dir.data.length + 1) ≠ [] ∧
      '/' ∉ p.data.drop (dir.data.length + 1)
  · obtain ⟨hc1, hc2, hc3⟩ := hc
    rw [if_pos ⟨hc1, hc2, hc3⟩] at h2
    injection h2 with h1
    subst h1
    rw [sdata_mk]
    refine ⟨?_, hc2, hc3⟩
    calc p.data = p.data.take (dir.data.length + 1) ++ p.data.drop (dir.data.length + 1) :=
          (List.take_append_drop _ _).symm
      _ = (dir.data ++ ['/']) ++ p.data.drop (dir.data.length + 1) := by rw [hc1]
      _ = dir.data ++ '/' :: p.data.drop (dir.data.length + 1) := by
          rw [List.append_assoc, List.singleton_append]
  · rw [if_neg hc] at h2
    exact absurd h2 (by simp)

theorem nameInDir_head {nm : String} (hne : nm.data ≠ []) (hns : '/' ∉ nm.data) :
    nm.data.head? ≠ some '/' := by
  cases hd : nm.data with
  | nil => exact absurd hd hne
  | cons a t =>
      intro hcontr
      injection hcontr with h1
      apply hns
      rw [hd, ← h1]
      simp

theorem pyJoin_nameInDir {dir p nm : String} (h : nameInDir dir p = some nm)
    (hdir1 : dir.data ≠ []) (hdir2 : dir.data.getLast? ≠ some '/') :
    pyJoin dir nm = p := by
  obtain ⟨hp, hne, hns⟩ := nameInDir_spec h
  apply seq_of_data
  rw [pyJoin_data_of_ne_slash _ _ (nameInDir_head hne hns),
    if_neg (by rw [not_or]; exact ⟨hdir1, hdir2⟩), hp]

theorem select_by_exts_mem {w : World} {dir : String} {exts : List String} {q : String}
    (h : q ∈ (select_by_exts w dir exts).1) :
    ∃ p ∈ w.files, ∃ nm, nameInDir dir p = some nm ∧
      pyEndswithAny (pyLower nm) (exts.map pyLower) = true ∧ q = pyJoin dir nm := by
  unfold select_by_exts at h
  by_cases hld : w.listdirFails dir = true
  · rw [if_pos hld] at h
    exact absurd h (List.not_mem_nil q)
  · rw [if_neg hld] at h
    simp only [listdirW, List.mem_filterMap] at h
    obtain ⟨nm, hnm, hif⟩ := h
    obtain ⟨p, hp, hnd⟩ := hnm
    by_cases he : pyEndswithAny (pyLower nm) (exts.map pyLower) = true
    · rw [if_pos he] at hif
      injection hif with h1
      exact ⟨p, hp, nm, hnd, he, h1.symm⟩
    · rw [if_neg he] at hif
      exact absurd hif (by simp)

theorem pyJoin_data_suffix {dir nm : String} (hne : nm.data ≠ []) (hns : '/' ∉ nm.data) :
    ∃ A, (pyJoin dir nm).data = A ++ nm.data := by
  rw [pyJoin_data_of_ne_slash _ _ (nameInDir_head hne hns)]
  by_cases hcond : dir.data = [] ∨ dir.data.getLast? = some '/'
  · rw [if_pos hcond]
    exact ⟨dir.data, rfl⟩
  · rw [if_neg hcond]
    refine ⟨dir.data ++ ['/'], ?_⟩
    rw [List.append_assoc, List.singleton_append]

theorem pyEndswith_lower_join {dir nm e : String}
    (hne : nm.data ≠ []) (hns : '/' ∉ nm.data)
    (h : pyEndswith (pyLower nm) e = true) :
    pyEndswith (pyLower (pyJoin dir nm)) e = true := by
  obtain ⟨A, hA⟩ := pyJoin_data_suffix hne hns
  unfold pyEndswith pyLower at h ⊢
  rw [sdata_mk] at h ⊢
  rw [hA, List.map_append, List.isSuffixOf_iff_suffix]
  rw [List.isSuffixOf_iff_suffix] at h
  exact h.trans (List.suffix_append _ _)

theorem suffix_unique {l s1 s2 : List Char} (h1 : s1 <:+ l) (h2 : s2 <:+ l)
    (hlen : s1.length = s2.length) : s1 = s2 := by
  obtain ⟨t1, ht1⟩ := h1
  obtain ⟨t2, ht2⟩ := h2
  rw [← ht1] at ht2
  exact ((List.append_inj' ht2 hlen.symm).2).symm

/-- A path whose lower-cased form ends in `.mov` does not end in any of the
still-image extensions. -/
theorem mov_not_img_ext {x c : String}
    (hmov : pyEndswith (pyLower c) ".mov" = true)
    (himg : pyEndswithAny (pyLower x) (img_exts.map pyLower) = true) : x ≠ c := by
  rintro rfl
  rw [pyEndswith, List.isSuffixOf_iff_suffix] at hmov
  obtain ⟨e, hemem, he⟩ := List.any_eq_true.mp himg
  rw [pyEndswith, List.isSuffixOf_iff_suffix] at he
  have hemem' : e = ".jpg" ∨ e = ".jpeg" ∨ e = ".tif" ∨ e = ".tiff" := by
    simpa [img_exts, pyLower] using hemem
  rcases hemem' with rfl | rfl | rfl | rfl
  · exact absurd (suffix_unique he hmov rfl) (by decide)
  · have he4 : ("jpeg" : String).data <:+ (pyLower x).data :=
      List.IsSuffix.trans ⟨['.'], rfl⟩ he
    exact absurd (suffix_unique he4 hmov rfl) (by decide)
  · exact absurd (suffix_unique he hmov rfl) (by decide)
  · have he4 : ("tiff" : String).data <:+ (pyLower x).data :=
      List.IsSuffix.trans ⟨['.'], rfl⟩ he
    exact absurd (suffix_unique he4 hmov rfl) (by decide)

theorem mov_not_jpg {x c : String}
    (hmov : pyEndswith (pyLower c) ".mov" = true)
    (hjpg : pyEndswith (pyLower x) ".jpg" = true) : x ≠ c := by
  rintro rfl
  rw [pyEndswith, List.isSuffixOf_iff_suffix] at hmov hjpg
  exact absurd (suffix_unique hjpg hmov rfl) (by decide)

/-! ## Helper lemmas: the two phases leave an unmatched clip alone -/

theorem rn_lphotos_eq (w : World) (dir limg_ext lmov_ext : String) (heads : List String) :
    rn_lphotos w dir limg_ext lmov_ext heads =
      (if w.crashed then w
       else if filter_by_name
           (select_by_exts (select_by_exts w dir [limg_ext]).2 dir [lmov_ext]).1 heads ≠ [] then
         pairs_outer (select_by_exts (select_by_exts w dir [limg_ext]).2 dir [lmov_ext]).2
           (filter_by_name (select_by_exts w dir [limg_ext]).1 heads)
           limg_ext.length lmov_ext.length
           (filter_by_name
             (select_by_exts (select_by_exts w dir [limg_ext]).2 dir [lmov_ext]).1 heads)
       else print (select_by_exts (select_by_exts w dir [limg_ext]).2 dir [lmov_ext]).2
         "No live photo is found.") := rfl

theorem phase2_eq (w : World) (dir : String) :
    phase2 w dir =
      (if w.crashed then w
       else if filter_by_name (select_by_exts w dir img_exts).1 f_heads ≠ [] then
         (if (phase2_loop (select_by_exts w dir img_exts).2
               (filter_by_name (select_by_exts w dir img_exts).1 f_heads)).crashed
          then phase2_loop (select_by_exts w dir img_exts).2
                 (filter_by_name (select_by_exts w dir img_exts).1 f_heads)
          else print (phase2_loop (select_by_exts w dir img_exts).2
                 (filter_by_name (select_by_exts w dir img_exts).1 f_heads)) "Done.")
       else print (select_by_exts w dir img_exts).2 "No file was further renamed.") := rfl

theorem phase2_cand_ne_mov {c : String} {w : World} {dir p : String}
    (hmov : pyEndswith (pyLower c) ".mov" = true)
    (hpmem : p ∈ filter_by_name (select_by_exts w dir img_exts).1 f_heads) : p ≠ c := by
  have h1 := (mem_filter_by_name.mp hpmem).1
  obtain ⟨q, _, nm, hnd, hany, heq⟩ := select_by_exts_mem h1
  obtain ⟨_, hne, hns⟩ := nameInDir_spec hnd
  subst heq
  apply mov_not_img_ext hmov
  rw [pyEndswithAny, List.any_eq_true] at hany ⊢
  obtain ⟨e, hemem, he⟩ := hany
  exact ⟨e, hemem, pyEndswith_lower_join hne hns he⟩

theorem phase1_img_facts {c : String} {w : World} {dir limg : String}
    (hdir1 : dir.data ≠ []) (hdir2 : dir.data.getLast? ≠ some '/')
    (hmov : pyEndswith (pyLower c) ".mov" = true)
    (hmem : limg ∈ filter_by_name (select_by_exts w dir [".JPG"]).1 ["IMG_"]) :
    limg ≠ c ∧ limg ∈ w.files ∧ pyEndswith (pyLower limg) ".jpg" = true := by
  have h1 := (mem_filter_by_name.mp hmem).1
  obtain ⟨q, hq, nm, hnd, hany, heq⟩ := select_by_exts_mem h1
  obtain ⟨_, hne, hns⟩ := nameInDir_spec hnd
  have hjpg_nm : pyEndswith (pyLower nm) ".jpg" = true := by
    rw [pyEndswithAny, List.any_eq_true] at hany
    obtain ⟨e, hemem, he⟩ := hany
    have he2 : e = ".jpg" := by
      have : e ∈ ([".JPG"] : List String).map pyLower := hemem
      simpa [show pyLower ".JPG" = ".jpg" by decide] using this
    rw [← he2]
    exact he
  have hjpg : pyEndswith (pyLower limg) ".jpg" = true := by
    rw [heq]
    exact pyEndswith_lower_join hne hns hjpg_nm
  refine ⟨mov_not_jpg hmov hjpg, ?_, hjpg⟩
  rw [heq, pyJoin_nameInDir hnd hdir1 hdir2]
  exact hq

theorem stepSafe_rn_lphotos {c : String} (w : World) (dir : String)
    (hdir1 : dir.data ≠ []) (hdir2 : dir.data.getLast? ≠ some '/')
    (hmov : pyEndswith (pyLower c) ".mov" = true)
    (h3 : ∀ q ∈ w.files, pyEndswith (pyLower q) ".jpg" = true →
      pyDropRight q 4 ≠ pyDropRight c 4) :
    StepSafe c w (rn_lphotos w dir ".JPG" ".MOV" ["IMG_"]) := by
  rw [rn_lphotos_eq]
  by_cases hcr : w.crashed
  · rw [if_pos hcr]
    exact stepSafe_rfl c w
  rw [if_neg hcr]
  by_cases hlm : filter_by_name
      (select_by_exts (select_by_exts w dir [".JPG"]).2 dir [".MOV"]).1 ["IMG_"] ≠ []
  · rw [if_pos hlm]
    have hframe : StepSafe c w
        (select_by_exts (select_by_exts w dir [".JPG"]).2 dir [".MOV"]).2 := by
      apply stepSafe_frame
      · rw [select_by_exts_files, select_by_exts_files]
      · rw [select_by_exts_renameLog, select_by_exts_renameLog]
    refine stepSafe_trans hframe ?_
    apply stepSafe_pairs_outer
    · intro limg hm
      exact (phase1_img_facts hdir1 hdir2 hmov hm).1
    · intro limg hm
      obtain ⟨_, hmemw, hjpg⟩ := phase1_img_facts hdir1 hdir2 hmov hm
      exact fun he => (h3 limg hmemw hjpg) he.symm
  · rw [if_neg hlm]
    apply stepSafe_frame
    · rw [show (print (select_by_exts (select_by_exts w dir [".JPG"]).2 dir [".MOV"]).2
          "No live photo is found.").files =
          (select_by_exts (select_by_exts w dir [".JPG"]).2 dir [".MOV"]).2.files from rfl,
        select_by_exts_files, select_by_exts_files]
    · rw [show (print (select_by_exts (select_by_exts w dir [".JPG"]).2 dir [".MOV"]).2
          "No live photo is found.").renameLog =
          (select_by_exts (select_by_exts w dir [".JPG"]).2 dir [".MOV"]).2.renameLog from rfl,
        select_by_exts_renameLog, select_by_exts_renameLog]

theorem stepSafe_phase2 {c : String} (w : World) (dir : String)
    (hp : ∀ p ∈ filter_by_name (select_by_exts w dir img_exts).1 f_heads, p ≠ c) :
    StepSafe c w (phase2 w dir) := by
  rw [phase2_eq]
  by_cases hcr : w.crashed
  · rw [if_pos hcr]
    exact stepSafe_rfl c w
  rw [if_neg hcr]
  by_cases hps : filter_by_name (select_by_exts w dir img_exts).1 f_heads ≠ []
  · rw [if_pos hps]
    have hframe : StepSafe c w (select_by_exts w dir img_exts).2 := by
      apply stepSafe_frame
      · rw [select_by_exts_files]
      · rw [select_by_exts_renameLog]
    have hloop : StepSafe c w (phase2_loop (select_by_exts w dir img_exts).2
        (filter_by_name (select_by_exts w dir img_exts).1 f_heads)) :=
      stepSafe_trans hframe (stepSafe_phase2_loop _ _ hp)
    by_cases hw2 : (phase2_loop (select_by_exts w dir img_exts).2
        (filter_by_name (select_by_exts w dir img_exts).1 f_heads)).crashed
    · rw [if_pos hw2]
      exact hloop
    · rw [if_neg hw2]
      exact stepSafe_trans hloop (stepSafe_frame rfl rfl)
  · rw [if_neg hps]
    have hframe : StepSafe c w (select_by_exts w dir img_exts).2 := by
      apply stepSafe_frame
      · rw [select_by_exts_files]
      · rw [select_by_exts_renameLog]
    exact stepSafe_trans hframe (stepSafe_frame rfl rfl)

/-- C9 (confirmed): a clip file (lower-case extension `.mov`) with no still
image sharing its extension-stripped path is left untouched by the entire
run: its path survives, and every rename the run performs has a source and
a target different from it.  The directory hypothesis is the usual
well-formed directory name (non-empty, no trailing slash). -/
theorem c9_unmatched_clip_untouched (w : World) (img_dir c : String)
    (hc : c ∈ w.files)
    (hmov : pyEndswith (pyLower c) ".mov" = true)
    (hdir1 : img_dir.data ≠ []) (hdir2 : img_dir.data.getLast? ≠ some '/')
    (h3 : ∀ q ∈ w.files, pyEndswith (pyLower q) ".jpg" = true →
      pyDropRight q 4 ≠ pyDropRight c 4) :
    c ∈ (full_run w img_dir).files ∧
    ∀ e ∈ (full_run w img_dir).renameLog,
      e ∈ w.renameLog ∨ (e.1 ≠ c ∧ e.2 ≠ c) := by
  have hsafe : StepSafe c w (full_run w img_dir) := by
    unfold full_run
    refine stepSafe_trans (stepSafe_rn_lphotos w img_dir hdir1 hdir2 hmov h3) ?_
    apply stepSafe_phase2
    intro p hp
    exact phase2_cand_ne_mov hmov hp
  exact hsafe hc

def c9World : World :=
  { files := ["d/clip.MOV", "d/x.jpg"],
    exif := fun _ => some "2023:04:06 17:50:47",
    openFails := fun _ => false, renameFails := fun _ _ => false,
    listdirFails := fun _ => false, log := [], renameLog := [], crashed := false }

theorem c9_witness :
    "d/clip.MOV" ∈ (full_run c9World "d").files ∧
    ∀ e ∈ (full_run c9World "d").renameLog,
      e ∈ c9World.renameLog ∨ (e.1 ≠ "d/clip.MOV" ∧ e.2 ≠ "d/clip.MOV") :=
  c9_unmatched_clip_untouched c9World "d" "d/clip.MOV" (by decide) (by decide)
    (by decide) (by decide) (by decide)
